import Mathlib

/-!
Verification of the munki client update-check engine
(`code/client/munkilib/updatecheck.py`) against its specification.

The Python module is shallowly embedded: dictionaries become structures
with `Option`-valued fields (a `none` models an absent key), Python
truthiness is made explicit, uncaught exceptions (KeyError, IndexError,
TypeError, ValueError, plist read errors) are modelled by an `Option`
result whose `none` constructor means "the run crashed", and unbounded
recursion is modelled with a fuel parameter (running out of fuel also
yields `none`).  External collaborators (filesystem probes, receipt
database, Apple update list, the download/fetch library, and the
version-comparison class `MunkiLooseVersion` that lives in the
`munkicommon` module) are modelled as oracle functions carried by an
`Env` record; theorems quantify over all oracles, so they hold for the
real collaborators in particular.
-/

namespace Munki

/-- Structural core of Python `str.split(sep)` (non-overlapping,
left-to-right) over character lists; the fuel argument (instantiated
with the input length plus one, which always suffices) keeps the
recursion structural so that terms reduce inside the kernel. -/
def pySplitGo (sep : List Char) : Nat → List Char → List Char → List (List Char)
  | 0, rest, acc => [acc.reverse ++ rest]
  | _ + 1, [], acc => [acc.reverse]
  | fuel + 1, c :: rest, acc =>
    if sep.isPrefixOf (c :: rest) then
      acc.reverse :: pySplitGo sep fuel ((c :: rest).drop sep.length) []
    else pySplitGo sep fuel rest (c :: acc)

/-- Python `s.split(sep)` for a nonempty separator (the source never
splits on an empty one). -/
def pySplit (s sep : String) : List String :=
  if sep = "" then [s]
  else
    (pySplitGo sep.toList (s.toList.length + 1) s.toList []).map
      (fun cs => String.mk cs)

/-- Python `s.startswith(t)`. -/
def pyStartsWith (s t : String) : Bool :=
  t.toList.isPrefixOf s.toList

/-- Python `'0123456789'` digit test used by `nameAndVersion`. -/
def pyDigit (c : Char) : Bool :=
  c = '0' ∨ c = '1' ∨ c = '2' ∨ c = '3' ∨ c = '4' ∨
  c = '5' ∨ c = '6' ∨ c = '7' ∨ c = '8' ∨ c = '9'

/-- Python `needle in haystack` substring test for strings: `s.split(t)`
has more than one chunk exactly when nonempty `t` occurs in `s`. -/
def pyInStr (needle haystack : String) : Bool :=
  (pySplit haystack needle).length > 1

/-- Python `os.path.split(s)[1]`: the part after the last `/`. -/
def pyBasename (s : String) : String :=
  (pySplit s "/").getLastD s

/-- Python `list(set(xs))` for strings.  The source uses it only to
deduplicate; CPython's set iteration order is modelled here as
first-occurrence order. -/
def pyListSet (l : List String) : List String :=
  l.foldl (fun acc x => if x ∈ acc then acc else acc ++ [x]) []

/-- Outcome of trying one delimiter inside `nameAndVersion`. -/
inductive NVStep
  | next                               -- delimiter absent, or chunk does not start with a digit
  | crash                              -- `vers[0]` on the empty string: IndexError
  | found (name vers : String)
  deriving Repr, DecidableEq

/-- One iteration of the `for delim in ('--', '-')` loop of
`nameAndVersion` (updatecheck.py:765-771):
`aString.count(delim) > 0` is "split yields at least two chunks";
`chunks.pop()` is the last chunk; `delim.join(chunks)` rejoins the rest;
`vers[0]` raises IndexError when the last chunk is empty. -/
def nvTryDelim (aString delim : String) : NVStep :=
  let chunks := pySplit aString delim
  if chunks.length ≤ 1 then .next
  else
    let vers := chunks.getLastD ""
    let name := String.intercalate delim chunks.dropLast
    match vers.toList with
    | [] => .crash
    | c :: _ => if pyDigit c then .found name vers else .next

/-- `nameAndVersion` (updatecheck.py:756-773).  `none` models the
IndexError raised by `vers[0]` when the input ends with the delimiter. -/
def nameAndVersion (aString : String) : Option (String × String) :=
  match nvTryDelim aString "--" with
  | .crash => none
  | .found n v => some (n, v)
  | .next =>
    match nvTryDelim aString "-" with
    | .crash => none
    | .found n v => some (n, v)
    | .next => some (aString, "")

/-- The `while len(version_parts) > 2 and version_parts[-1] == '0'`
loop of `trimVersionString`, run on the reversed part list so that the
recursion is structural. -/
def trimPartsRev : List String → List String
  | [] => []
  | x :: rest =>
    if x = "0" ∧ rest.length + 1 > 2 then trimPartsRev rest else x :: rest

/-- `trimVersionString` (updatecheck.py:817-832): drop lone trailing
`"0"` parts while more than two parts remain. -/
def trimVersionString (version_string : String) : String :=
  if version_string = "" then ""
  else
    String.intercalate "."
      ((trimPartsRev (pySplit version_string ".").reverse).reverse)

end Munki

namespace Munki

/-! ## ForceInstallScheduler — `checkForceInstallPackages`
(updatecheck.py:2693-2754).

The function reads `InstallInfo.plist` from disk; its managed-installs
records are modelled by `FIRecord`.  Dates are modelled as integer
timestamps, already time-zone-discarded (`discardTimeZoneFromDate` is a
pure reinterpretation of the same instant).  `FORCE_INSTALL_WARNING_HOURS
= 4` (updatecheck.py:50). -/

structure FIRecord where
  name : String
  force_install_after_date : Option Int
  RestartAction : Option String
  unattended_install : Bool
  deriving Repr, DecidableEq

/-- The body of the `for i in xrange(...)` loop for one record.  State is
(result, writeback); the record is returned possibly mutated. -/
def forceInstallStep (now nowXHours : Int) (st : Option String × Bool)
    (install : FIRecord) : (Option String × Bool) × FIRecord :=
  match install.force_install_after_date with
  | none => (st, install)
  | some d =>
    let (result, writeback) := st
    -- `if now >= force_install_after_date:`
    let (result, writeback, install) :=
      if now ≥ d then
        let result := some "now"
        -- `if install.get('RestartAction'):` (truthy: present and nonempty)
        match install.RestartAction with
        | some ra =>
          if ra = "RequireLogout" then (some "logout", writeback, install)
          else if ra = "RequireRestart" then (some "restart", writeback, install)
          else if ra = "" then
            -- falsy value: falls to the `elif not install.get('unattended_install', False)` branch
            if ¬ install.unattended_install then
              (result, true, { install with unattended_install := true })
            else (result, writeback, install)
          else (result, writeback, install)
        | none =>
          if ¬ install.unattended_install then
            (result, true, { install with unattended_install := true })
          else (result, writeback, install)
      else (result, writeback, install)
    -- `if now_xhours >= force_install_after_date: if not result: result = 'soon'`
    let result := if nowXHours ≥ d ∧ result = none then some "soon" else result
    ((result, writeback), install)

def forceInstallLoop (now nowXHours : Int) :
    (Option String × Bool) → List FIRecord →
    (Option String × Bool) × List FIRecord
  | st, [] => (st, [])
  | st, r :: rest =>
    let (st', r') := forceInstallStep now nowXHours st r
    let (stFin, rest') := forceInstallLoop now nowXHours st' rest
    (stFin, r' :: rest')

/-- `checkForceInstallPackages` on an already-read record list.  Returns
(result urgency, records as written back, writeback flag). -/
def checkForceInstallPackages (now : Int) (records : List FIRecord) :
    Option String × List FIRecord × Bool :=
  let nowXHours := now + 4 * 3600
  let (st, records') := forceInstallLoop now nowXHours (none, false) records
  (st.1, records', st.2)

end Munki

namespace Munki

/-! ## Data model

Catalog item records (`pkginfo` plists).  A plist value that the code
sometimes receives as a bare string and sometimes as a list of strings
(`requires`, `update_for`) is modelled by `StrOrList`; `absent` models a
missing key. -/

inductive StrOrList
  | absent
  | str (s : String)
  | list (l : List String)
  deriving Repr, DecidableEq

/-- Python truthiness of a `StrOrList` value. -/
def StrOrList.truthy : StrOrList → Bool
  | .absent => false
  | .str s => s ≠ ""
  | .list l => l ≠ []

/-- Python `x in v` where `v` is the plist value and `x` a string:
substring test on a string value, membership on a list value. -/
def StrOrList.pyMem (x : String) : StrOrList → Bool
  | .absent => false
  | .str s => pyInStr x s
  | .list l => x ∈ l

/-- Python truthiness of an optional string (`None` and `''` falsy). -/
def optStrTruthy : Option String → Bool
  | none => false
  | some s => s ≠ ""

/-- Python truthiness of an optional list (`None` and `[]` falsy). -/
def optListTruthy {α : Type} : Option (List α) → Bool
  | none => false
  | some l => !l.isEmpty

/-- One entry of a `receipts` array. -/
structure Receipt where
  packageid : Option String
  version : Option String
  deriving Repr, DecidableEq

/-- One entry of an `installs` array (a detection descriptor).  Only the
fields read by the embedded code paths are carried; the version/checksum
comparison itself probes the filesystem and is an `Env` oracle. -/
structure InstallsEntry where
  type : Option String
  path : Option String
  CFBundleShortVersionString : Option String
  deriving Repr, DecidableEq

/-- A catalog item record (pkginfo).  `Option`/`StrOrList` fields model
optional plist keys.  Keys that appear in the source only inside the
`optional_keys` copy loops and are never read back by any embedded code
path (`suppress_bundle_relocation`, `installer_choices_xml`, ...) are
not carried. -/
structure MunkiItem where
  name : Option String := none
  version : Option String := none
  display_name : Option String := none
  description : Option String := none
  requires : StrOrList := .absent
  update_for : StrOrList := .absent
  installs : Option (List InstallsEntry) := none
  receipts : Option (List Receipt) := none
  autoremove : Bool := false
  uninstallable : Bool := false
  uninstall_method : Option String := none
  uninstall_script : Option String := none
  softwareupdatename : Option String := none
  RestartAction : Option String := none
  unattended_install : Bool := false
  unattended_uninstall : Bool := false
  forced_install : Bool := false
  forced_uninstall : Bool := false
  installer_item_location : Option String := none
  uninstaller_item_location : Option String := none
  installer_item_size : Option Nat := none
  installed_size : Option Nat := none
  minimum_os_version : Option String := none
  maximum_os_version : Option String := none
  supported_architectures : Option (List String) := none
  force_install_after_date : Option Int := none
  adobe_install_info : Option String := none
  adobe_package_name : Option String := none
  items_to_copy : Option (List String) := none
  deriving Repr, DecidableEq

/-! ## CatalogIndex — `makeCatalogDB` (updatecheck.py:53-122). -/

/-- Append `v` to the bucket of `k` in an association list, creating the
bucket if needed (models `if not k in table: table[k] = ...; append`). -/
def assocAppend {β : Type} (tbl : List (String × List β)) (k : String)
    (v : β) : List (String × List β) :=
  if tbl.any (fun e => e.1 = k) then
    tbl.map (fun e => if e.1 = k then (e.1, e.2 ++ [v]) else e)
  else tbl ++ [(k, [v])]

def assocFind {β : Type} (tbl : List (String × β)) (k : String) :
    Option β :=
  (tbl.find? (fun e => e.1 = k)).map Prod.snd

/-- The two-level name → version → [itemindex] table. -/
abbrev NameTable := List (String × List (String × List Nat))

def nameTableAppend (tbl : NameTable) (name vers : String) (idx : Nat) :
    NameTable :=
  if tbl.any (fun e => e.1 = name) then
    tbl.map (fun e =>
      if e.1 = name then (e.1, assocAppend e.2 vers idx) else e)
  else tbl ++ [(name, [(vers, [idx])])]

structure CatalogDB where
  named : NameTable
  receiptsTbl : NameTable
  updaters : List MunkiItem
  autoremoveitems : List String
  items : List MunkiItem
  deriving Repr, DecidableEq

/-- The per-item body of the first loop of `makeCatalogDB`
(updatecheck.py:60-90): index the item by (name, trimmed version) and
each of its receipts by (packageid, receipt version). -/
def catalogDBStep (st : NameTable × NameTable × Nat)
    (item : MunkiItem) : NameTable × NameTable × Nat :=
  let (name_table, pkgid_table, itemindex) := st
  let name := item.name.getD "NO NAME"
  let vers := trimVersionString (item.version.getD "NO VERSION")
  let name_table := nameTableAppend name_table name vers itemindex
  let pkgid_table :=
    (item.receipts.getD []).foldl (fun tbl r =>
      match r.packageid, r.version with
      | some pid, some rv => nameTableAppend tbl pid rv itemindex
      | _, _ => tbl) pkgid_table
  (name_table, pkgid_table, itemindex + 1)

/-- `update['update_for'] = [update['update_for']]` normalization
(updatecheck.py:99-102), applied in place to every updater — this
mutates the shared item record. -/
def normalizeUpdateFor (item : MunkiItem) : MunkiItem :=
  if item.update_for.truthy then
    match item.update_for with
    | .str s => { item with update_for := .list [s] }
    | _ => item
  else item

/-- `makeCatalogDB` (updatecheck.py:53-122).  The returned `items` list
is the catalog array as it exists after the in-place `update_for`
normalization of the updaters (the Python dictionaries are shared, so
the mutation is visible through `pkgdb['items']` and through the caller's
array). -/
def makeCatalogDB (catalogitems : List MunkiItem) : CatalogDB :=
  let st := catalogitems.foldl catalogDBStep ([], [], 0)
  let name_table := st.1
  let pkgid_table := st.2.1
  let items' := catalogitems.map normalizeUpdateFor
  let updaters := items'.filter (fun item => item.update_for.truthy)
  let autoremoveitems :=
    pyListSet ((catalogitems.filter (fun item => item.autoremove)).map
      (fun item => item.name.getD "None"))
  { named := name_table
    receiptsTbl := pkgid_table
    updaters := updaters
    autoremoveitems := autoremoveitems
    items := items' }

end Munki

namespace Munki

/-! ## Environment: external collaborators and module-level globals that
are fixed for the duration of a check run. -/

/-- Result of fetching an (un)installer payload
(`getResourceIfChangedAtomically` and the `fetch` module).  `ok b`
returns normally (`b` = the file was actually transferred, `false` = it
was already cached); the other constructors are the exception classes
caught in `processInstall`/`processRemoval`. -/
inductive DLOutcome
  | ok (downloaded : Bool)
  | verificationError            -- fetch.PackageVerificationError
  | curlError                    -- fetch.CurlDownloadError
  | downloadError (msg : String) -- fetch.MunkiDownloadError
  deriving Repr, DecidableEq

structure Env where
  /-- `munkicommon.MunkiLooseVersion` comparison.  `munkicommon` is an
  external module; the comparison is an oracle over optional strings
  (the source compares a possibly-missing `version_to_install` in
  `isItemInInstallInfo`). -/
  vcmp : Option String → Option String → Ordering
  machineOSVers : String            -- MACHINE['os_vers']
  machineArch : String              -- MACHINE['arch']
  /-- `CATALOG`: catalog name → raw item array as downloaded;
  `getCatalogs` stores `makeCatalogDB` of this array. -/
  catalogArrays : List (String × List MunkiItem)
  /-- `FoundationPlist.readPlist` of `<ManagedInstallDir>/catalogs/<name>`
  (processRemoval re-reads catalogs from disk); `none` = unreadable,
  which raises out of `processRemoval`. -/
  diskCatalogs : String → Option (List MunkiItem)
  appleUpdates : List String        -- appleupdates.softwareUpdateList()
  /-- `compareItemVersion` of one `installs` descriptor: probes the
  filesystem; `none` models `munkicommon.Error`. -/
  compareItemVersion : InstallsEntry → Option Int
  /-- `compareReceiptVersion` of one receipt; `none` models
  `munkicommon.Error`. -/
  compareReceiptVersion : Receipt → Option Int
  pathExists : String → Bool        -- os.path.exists
  accessXOK : String → Bool         -- os.access(path, os.X_OK)
  installed_names : List String     -- PKGDATA['installed_names']
  receipts_for_name : List (String × List String)  -- PKGDATA['receipts_for_name']
  /-- Fetch of the installer payload of an item (network/cache/disk). -/
  download : MunkiItem → DLOutcome
  /-- Fetch of the uninstaller payload (the `uninstalling=True` call). -/
  downloadUninst : MunkiItem → DLOutcome
  /-- The wall-clock `download_kbytes_per_sec` figure recorded after a
  successful transfer. -/
  downloadSpeed : MunkiItem → Nat
  /-- `getInstalledVersion` (probes receipts/bundles on disk). -/
  installedVersionOf : MunkiItem → String

/-- `CATALOG[name]` as populated by `getCatalogs`. -/
def lookupCatalog (env : Env) (name : String) : Option CatalogDB :=
  (assocFind env.catalogArrays name).map makeCatalogDB

/-- `compareVersions` (updatecheck.py:273-288): -1 older, 1 same,
2 newer. -/
def compareVersions (env : Env) (thisvers thatvers : Option String) : Int :=
  match env.vcmp thisvers thatvers with
  | .lt => -1
  | .eq => 1
  | .gt => 2

/-! ## ItemSelector — `getItemDetail` (updatecheck.py:835-968) and
`getAllItemsWithName` (updatecheck.py:776-814). -/

/-- OS-version and architecture eligibility filter applied to a
candidate item (updatecheck.py:887-953). -/
def itemPassesFilters (env : Env) (item : MunkiItem) : Bool :=
  (if optStrTruthy item.minimum_os_version then
     env.vcmp (some env.machineOSVers) item.minimum_os_version ≠ .lt
   else true) &&
  (if optStrTruthy item.maximum_os_version then
     env.vcmp (some env.machineOSVers) item.maximum_os_version ≠ .gt
   else true) &&
  (match item.supported_architectures with
   | none => true
   | some archs => archs.any (fun a => a = env.machineArch))

/-- Stable insertion step: place `a` before the first element it
compares `le` to. -/
def insertLe (le : α → α → Bool) (a : α) : List α → List α
  | [] => [a]
  | b :: l => if le a b then a :: b :: l else b :: insertLe le a l

/-- A stable sort (the unique stable order for a total `le`, hence the
order Python's stable `sort` produces). -/
def stableSortLe (le : α → α → Bool) : List α → List α
  | [] => []
  | a :: l => insertLe le a (stableSortLe le l)

/-- `versionlist.sort(compare_version_keys)`: version keys ordered
newest first (stable). -/
def versionKeysDesc (env : Env) (buckets : List (String × List Nat)) :
    List String :=
  stableSortLe
    (fun a b => env.vcmp (some b) (some a) ≠ Ordering.gt)
    (buckets.map Prod.fst)

/-- The per-catalog body of `getItemDetail`: build the candidate index
list (specific version, or all versions newest first) and return the
first candidate passing the eligibility filters. -/
def getItemDetailInCatalog (env : Env) (name vers : String)
    (db : CatalogDB) : Option MunkiItem :=
  match assocFind db.named name with
  | none => none
  | some buckets =>
    let indexlist : List Nat :=
      if vers = "latest" then
        (versionKeysDesc env buckets).foldl
          (fun acc k => acc ++ ((assocFind buckets k).getD [])) []
      else (assocFind buckets vers).getD []
    (indexlist.filterMap (fun i => db.items.get? i)).find?
      (itemPassesFilters env)

def getItemDetailSearch (env : Env) (name vers : String) :
    List String → Option MunkiItem
  | [] => none
  | c :: rest =>
    match lookupCatalog env c with
    | none => getItemDetailSearch env name vers rest
    | some db =>
      match getItemDetailInCatalog env name vers db with
      | some item => some item
      | none => getItemDetailSearch env name vers rest

/-- `getItemDetail(name, cataloglist, vers='')`.  The outer `Option` is
the crash monad (`nameAndVersion` can raise); the inner `Option` is
found / not found. -/
def getItemDetail (env : Env) (name0 : String) (cataloglist : List String)
    (vers0 : String) : Option (Option MunkiItem) :=
  match nameAndVersion name0 with
  | none => none
  | some (name, includedversion) =>
    let vers1 := if vers0 = "" ∧ includedversion ≠ "" then includedversion
                 else vers0
    let vers := if vers1 ≠ "" then trimVersionString vers1 else "latest"
    some (getItemDetailSearch env name vers cataloglist)

/-- `itemlist.sort(compare_item_versions)` in `getAllItemsWithName`:
the comparison function reads `item['version']` directly, so a missing
version key raises KeyError once the sort actually compares (two or
more elements). -/
def sortItemsDesc (env : Env) (l : List MunkiItem) :
    Option (List MunkiItem) :=
  if l.length ≥ 2 ∧ l.any (fun it => it.version = none) then none
  else
    some (stableSortLe (fun a b =>
      env.vcmp (some (b.version.getD "")) (some (a.version.getD ""))
        ≠ Ordering.gt) l)

/-- `getAllItemsWithName` (updatecheck.py:776-814): every version of
`name` across the catalogs, deduplicated, newest first. -/
def getAllItemsWithName (env : Env) (name0 : String)
    (cataloglist : List String) : Option (List MunkiItem) :=
  match nameAndVersion name0 with
  | none => none
  | some (name, _) =>
  let itemlist := cataloglist.foldl (fun acc c =>
    match lookupCatalog env c with
    | none => acc
    | some db =>
      match assocFind db.named name with
      | none => acc
      | some buckets =>
        buckets.foldl (fun acc2 bucket =>
          if bucket.1 = "latest" then acc2
          else bucket.2.foldl (fun acc3 i =>
            match db.items.get? i with
            | some it => if it ∈ acc3 then acc3 else acc3 ++ [it]
            | none => acc3) acc2) acc) []
  if itemlist.isEmpty then some itemlist else sortItemsDesc env itemlist

end Munki

namespace Munki

/-! ## Outcome records and the run state. -/

/-- An `iteminfo` dictionary appended to
`managed_installs`/`removals`/`optional_installs`.  Fields mirror the
keys the source assigns; `Option`/default values model keys not set on
a given path.  Keys copied by the `optional_keys` loops that no embedded
code reads back are not carried. -/
structure ItemInfo where
  name : String := ""
  display_name : String := ""
  description : String := ""
  installer_item_size : Option Nat := none
  installed_size : Option Nat := none
  download_kbytes_per_sec : Option Nat := none
  installer_item : Option String := none
  installed : Option Bool := none
  version_to_install : Option String := none
  installed_version : Option String := none
  unattended_install : Bool := false
  unattended_uninstall : Bool := false
  note : Option String := none
  RestartAction : Option String := none
  requires : StrOrList := .absent
  update_for : StrOrList := .absent
  installs : Option (List InstallsEntry) := none
  force_install_after_date : Option Int := none
  packages : Option (List String) := none
  uninstall_method : Option String := none
  uninstall_script : Option String := none
  uninstaller_item : Option String := none
  adobe_install_info : Option String := none
  adobe_package_name : Option String := none
  items_to_remove : Option (List String) := none
  remove_app_info : Option InstallsEntry := none
  deriving Repr, DecidableEq

/-- The `installinfo` dictionary threaded through a whole check run,
plus the module-global `PKGDATA['pkg_references']` table, which
`processRemoval` mutates. -/
structure InstallInfo where
  managed_installs : List ItemInfo := []
  removals : List ItemInfo := []
  processed_installs : List String := []
  processed_uninstalls : List String := []
  managed_updates : List String := []
  optional_installs : List ItemInfo := []
  pkg_references : List (String × List String) := []
  deriving Repr, DecidableEq

/-- `isItemInInstallInfo` (updatecheck.py:730-753).  A missing `name`
key on `manifestitem_pl` raises KeyError for the row, which the source
catches and treats as "no match". -/
def isItemInInstallInfo (env : Env) (manifestitem_pl : MunkiItem)
    (vers : Option String) : List ItemInfo → Bool
  | [] => false
  | item :: rest =>
    match manifestitem_pl.name with
    | none => isItemInInstallInfo env manifestitem_pl vers rest
    | some n =>
      if item.name = n then
        if ¬ optStrTruthy vers then true
        else if item.installed = some true then true
        else
          let c := compareVersions env item.version_to_install vers
          if c = 1 ∨ c = 2 then true
          else isItemInInstallInfo env manifestitem_pl vers rest
      else isItemInInstallInfo env manifestitem_pl vers rest

/-! ## InstalledStateDetector — `installedState` (updatecheck.py:
1027-1093), `someVersionInstalled` (1096-1132),
`evidenceThisIsInstalled` (1135-1166). -/

/-- The shared descriptor/receipt loop of `installedState`: first
comparison reporting absent/older (or raising `munkicommon.Error`)
short-circuits to 0; a "newer" sets a flag; otherwise 2 if some
comparison was newer, else 1. -/
def detLoop {α : Type} (cmp : α → Option Int) :
    List α → Bool → Nat
  | [], foundnewer => if foundnewer then 2 else 1
  | x :: rest, foundnewer =>
    match cmp x with
    | none => 0
    | some c =>
      if c = -1 ∨ c = 0 then 0
      else if c = 2 then detLoop cmp rest true
      else detLoop cmp rest foundnewer

/-- `installedState`: 0 absent/older, 1 this version installed,
2 newer installed. -/
def installedState (env : Env) (item_pl : MunkiItem) : Nat :=
  if optStrTruthy item_pl.softwareupdatename then
    if item_pl.softwareupdatename.getD "" ∈ env.appleUpdates then 0 else 1
  else if optListTruthy item_pl.installs then
    detLoop env.compareItemVersion (item_pl.installs.getD []) false
  else if item_pl.receipts.isSome then
    detLoop env.compareReceiptVersion (item_pl.receipts.getD []) false
  else 1

/-- The descriptor/receipt loop of `someVersionInstalled`. -/
def svLoop {α : Type} (cmp : α → Option Int) : List α → Bool
  | [] => true
  | x :: rest =>
    match cmp x with
    | none => false
    | some c => if c = 0 then false else svLoop cmp rest

/-- `someVersionInstalled`: any version of the item present. -/
def someVersionInstalled (env : Env) (item_pl : MunkiItem) : Bool :=
  if optListTruthy item_pl.installs then
    svLoop env.compareItemVersion (item_pl.installs.getD [])
  else if item_pl.receipts.isSome then
    svLoop env.compareReceiptVersion (item_pl.receipts.getD [])
  else true

/-- The receipts clause of `evidenceThisIsInstalled`; reads
`item_pl['name']` directly (KeyError → crash, hence `Option`). -/
def evidenceReceiptsPart (env : Env) (item_pl : MunkiItem) :
    Option Bool :=
  if optListTruthy item_pl.receipts then
    match item_pl.name with
    | none => none
    | some n => some (n ∈ env.installed_names)
  else some false

/-- `evidenceThisIsInstalled`: any sign the item (any version) is on
disk. -/
def evidenceThisIsInstalled (env : Env) (item_pl : MunkiItem) :
    Option Bool :=
  if item_pl.installs.isSome ∧
      item_pl.uninstall_method ≠ some "removepackages" then
    if (item_pl.installs.getD []).all (fun it =>
        match it.path with
        | some p => env.pathExists p
        | none => true) then
      some true
    else evidenceReceiptsPart env item_pl
  else evidenceReceiptsPart env item_pl

/-- `getReceiptsToRemove` (updatecheck.py:1754-1759); reads
`item['name']` directly. -/
def getReceiptsToRemove (env : Env) (item : MunkiItem) :
    Option (List String) :=
  match item.name with
  | none => none
  | some n => some ((assocFind env.receipts_for_name n).getD [])

/-! ## Updater search — `lookForUpdates` (updatecheck.py:1187-1227),
`lookForUpdatesForVersion` (1230-1243). -/

/-- The list comprehension
`[catalogitem['name'] for catalogitem in updaters
  if (itemname in catalogitem.get('update_for', []))]`.
`itemname` can be `None` (the removal path passes
`uninstall_item.get('name')`), in which case a string-valued
`update_for` would raise TypeError; a matching updater without a
`name` key raises KeyError. -/
def updaterNames (itemname : Option String) :
    List MunkiItem → Option (List String)
  | [] => some []
  | ci :: rest =>
    let hit : Option Bool :=
      match itemname, ci.update_for with
      | none, .str _ => none
      | none, _ => some false
      | some x, uf => some (uf.pyMem x)
    match hit with
    | none => none
    | some b =>
      if b then
        match ci.name with
        | none => none
        | some nm => (updaterNames itemname rest).map (nm :: ·)
      else updaterNames itemname rest

/-- The catalog loop of `lookForUpdates`. -/
def lookForUpdatesGo (env : Env) (itemname : Option String) :
    List String → List String → Option (List String)
  | [], acc => some acc
  | c :: rest, acc =>
    match lookupCatalog env c with
    | none => lookForUpdatesGo env itemname rest acc
    | some db =>
      match updaterNames itemname db.updaters with
      | none => none
      | some names => lookForUpdatesGo env itemname rest (acc ++ names)

/-- `lookForUpdates`: names of catalog items that declare themselves
updates for `itemname`. -/
def lookForUpdates (env : Env) (itemname : Option String)
    (cataloglist : List String) : Option (List String) :=
  match lookForUpdatesGo env itemname cataloglist [] with
  | none => none
  | some update_list => some (pyListSet update_list)

/-- `lookForUpdatesForVersion`: search both `name-version` and
`name--version` composite forms. -/
def lookForUpdatesForVersion (env : Env) (itemname itemversion : String)
    (cataloglist : List String) : Option (List String) :=
  match lookForUpdates env (some (itemname ++ "-" ++ itemversion))
      cataloglist with
  | none => none
  | some l1 =>
    match lookForUpdates env (some (itemname ++ "--" ++ itemversion))
        cataloglist with
    | none => none
    | some l2 => some (pyListSet (l1 ++ l2))

/-- `getInstallerItemBasename` (updatecheck.py:2320-2328): basename of
the URL's path component.  Installer locations in this engine are
repo-relative paths, for which `urlparse` returns the string unchanged
as the path. -/
def getInstallerItemBasename (url : String) : String :=
  pyBasename url

/-- `download_installeritem` (updatecheck.py:666-727).  The missing-key
guard is in the source; everything else (URL building, disk-space
check, the actual fetch) is the oracle. -/
def download_installeritem (env : Env) (item_pl : MunkiItem)
    (uninstalling : Bool) : DLOutcome :=
  if uninstalling ∧ item_pl.uninstaller_item_location.isSome then
    if ¬ optStrTruthy item_pl.uninstaller_item_location then
      .downloadError "No uninstaller_item_location in item info."
    else env.downloadUninst item_pl
  else
    if ¬ optStrTruthy item_pl.installer_item_location then
      .downloadError "No installer_item_location in item info."
    else if uninstalling then env.downloadUninst item_pl
    else env.download item_pl

end Munki

namespace Munki

/-! ## InstallResolver — `processInstall` (updatecheck.py:1361-1634) and
`processManagedUpdate` (1246-1288). -/

/-- Python `'%s' % v` for an optional string (`None` prints as
`"None"`). -/
def pyRepr (o : Option String) : String := o.getD "None"

/-- The `for item in dependencies` loop of `processInstall`: every
prerequisite is processed (no early exit); any failure clears
`dependenciesMet`. -/
def runDeps (cb : String → InstallInfo → Option (Bool × InstallInfo)) :
    List String → InstallInfo → Bool → Option (InstallInfo × Bool)
  | [], ii, ok => some (ii, ok)
  | d :: rest, ii, ok =>
    match cb d ii with
    | none => none
    | some (s, ii') => runDeps cb rest ii' (ok && s)

/-- The `for update_item in update_list` loops: recursive calls whose
boolean results are discarded. -/
def runUpdates (cb : String → InstallInfo → Option (Bool × InstallInfo)) :
    List String → InstallInfo → Option InstallInfo
  | [], ii => some ii
  | u :: rest, ii =>
    match cb u ii with
    | none => none
    | some (_, ii') => runUpdates cb rest ii'

/-- The `optional_keys` copy loop of `processInstall`
(updatecheck.py:1515-1535), restricted to the carried fields. -/
def copyOptionalInstallKeys (item_pl : MunkiItem) (iteminfo : ItemInfo) :
    ItemInfo :=
  let iteminfo := match item_pl.RestartAction with
    | some ra => { iteminfo with RestartAction := some ra }
    | none => iteminfo
  let iteminfo :=
    if item_pl.installs.isSome then { iteminfo with installs := item_pl.installs }
    else iteminfo
  let iteminfo :=
    if item_pl.requires ≠ .absent then { iteminfo with requires := item_pl.requires }
    else iteminfo
  let iteminfo :=
    if item_pl.update_for ≠ .absent then
      { iteminfo with update_for := item_pl.update_for }
    else iteminfo
  match item_pl.force_install_after_date with
  | some d => { iteminfo with force_install_after_date := some d }
  | none => iteminfo

/-- The `requires` value as a dependency list (a bare string is fixed
to a one-element list, updatecheck.py:1439-1444). -/
def requiresList : StrOrList → List String
  | .absent => []
  | .str s => [s]
  | .list l => l

/-- The `iteminfo` record as appended by the three download-failure
branches of `processInstall` (updatecheck.py:1567-1588). -/
def failedDownloadIteminfo (item_pl : MunkiItem) (note : String) :
    ItemInfo :=
  { name := item_pl.name.getD ""
    display_name := item_pl.display_name.getD (item_pl.name.getD "")
    description := item_pl.description.getD ""
    installer_item_size := some (item_pl.installer_item_size.getD 0)
    installed_size := some (item_pl.installed_size.getD
      (item_pl.installer_item_size.getD 0))
    installed := some false
    note := some note }

/-- The `iteminfo` record as appended after a successful download
(updatecheck.py:1475-1537): download speed, payload basename,
`installed=False`, version to install, the unattended flag, and the
copied optional keys. -/
def downloadedIteminfo (env : Env) (item_pl : MunkiItem)
    (downloaded : Bool) : ItemInfo :=
  let iis := item_pl.installer_item_size.getD 0
  let download_speed :=
    if downloaded then (if iis < 1024 then 0 else env.downloadSpeed item_pl)
    else 0
  let filename := getInstallerItemBasename
    (item_pl.installer_item_location.getD "")
  let iteminfo : ItemInfo :=
    { name := item_pl.name.getD ""
      display_name := item_pl.display_name.getD (item_pl.name.getD "")
      description := item_pl.description.getD ""
      installer_item_size := some iis
      installed_size := some (item_pl.installed_size.getD iis)
      download_kbytes_per_sec := some download_speed
      installer_item := some filename
      installed := some false
      version_to_install := some (item_pl.version.getD "UNKNOWN") }
  let iteminfo :=
    if (item_pl.unattended_install ∨ item_pl.forced_install) ∧
        ¬ optStrTruthy item_pl.RestartAction then
      { iteminfo with unattended_install := true }
    else iteminfo
  copyOptionalInstallKeys item_pl iteminfo

/-- The `iteminfo` record as appended by the already-installed branch
(updatecheck.py:1589-1603). -/
def installedIteminfo (item_pl : MunkiItem) (instVers : String) :
    ItemInfo :=
  { name := item_pl.name.getD ""
    display_name := item_pl.display_name.getD (item_pl.name.getD "")
    description := item_pl.description.getD ""
    installed := some true
    installed_size := some (item_pl.installed_size.getD
      (item_pl.installer_item_size.getD 0))
    installed_version := some instVers }

/-- `iteminfo['installed_version']` of the already-installed branch
(updatecheck.py:1594-1602); `none` models the KeyError on
`item_pl['version']`. -/
def installedVersionString (env : Env) (item_pl : MunkiItem)
    (installed_state : Nat) : Option String :=
  if installed_state = 1 then item_pl.version
  else
    let iv := env.installedVersionOf item_pl
    if iv = "UNKNOWN" then
      item_pl.version.map (fun v => "(newer than " ++ v ++ ")")
    else some iv

/-- The version-specific updater search of the already-installed branch
(updatecheck.py:1615-1619), skipped when the installed version string is
the `(or newer)` placeholder. -/
def updatesForInstalledVersion (env : Env) (nwv instVers : String)
    (cataloglist : List String) : Option (List String) :=
  if ¬ pyInStr "(or newer)" instVers then
    lookForUpdatesForVersion env nwv instVers cataloglist
  else some []

/-- Body of `processInstall` after the guards, the catalog lookup and
the `processed_installs` append (updatecheck.py:1416-1634).  `pi_cb` is
the recursive call used for prerequisites and updaters. -/
def processInstallCore (env : Env)
    (pi_cb : String → InstallInfo → Option (Bool × InstallInfo))
    (item_pl : MunkiItem) (nameWithoutVersion includedversion : String)
    (cataloglist : List String) (installinfo : InstallInfo) :
    Option (Bool × InstallInfo) :=
  if isItemInInstallInfo env item_pl item_pl.version
      installinfo.managed_installs then
    some (true, installinfo)
  else
    let dependencies : List String := requiresList item_pl.requires
    match runDeps pi_cb dependencies installinfo true with
    | none => none
    | some (installinfo, dependenciesMet) =>
          if dependenciesMet then
            let installed_state := installedState env item_pl
            if installed_state = 0 then
              match download_installeritem env item_pl false with
              | .verificationError =>
                some (false, { installinfo with managed_installs :=
                  installinfo.managed_installs ++
                    [failedDownloadIteminfo item_pl
                      "Integrity check failed"] })
              | .curlError =>
                some (false, { installinfo with managed_installs :=
                  installinfo.managed_installs ++
                    [failedDownloadIteminfo item_pl "Download failed"] })
              | .downloadError msg =>
                some (false, { installinfo with managed_installs :=
                  installinfo.managed_installs ++
                    [failedDownloadIteminfo item_pl msg] })
              | .ok downloaded =>
                -- `item_pl['installer_item_location']` is present here:
                -- a missing/empty location raised MunkiDownloadError above
                let installinfo := { installinfo with managed_installs :=
                  installinfo.managed_installs ++
                    [downloadedIteminfo env item_pl downloaded] }
                if includedversion ≠ "" then
                  -- updatecheck.py:1545 calls `lookForUpdatesForVersion`
                  -- with two arguments, but it takes three: TypeError,
                  -- uncaught, so the run dies here
                  none
                else
                  match lookForUpdates env (some nameWithoutVersion)
                      cataloglist with
                  | none => none
                  | some l1 =>
                  match lookForUpdatesForVersion env nameWithoutVersion
                      (item_pl.version.getD "UNKNOWN") cataloglist with
                  | none => none
                  | some l2 =>
                  match runUpdates pi_cb (l1 ++ l2) installinfo with
                  | none => none
                  | some installinfo => some (true, installinfo)
            else
              match installedVersionString env item_pl installed_state with
              | none => none   -- KeyError on `item_pl['version']`
              | some instVers =>
                let installinfo := { installinfo with managed_installs :=
                  installinfo.managed_installs ++
                    [installedIteminfo item_pl instVers] }
                if includedversion = "" then
                  match lookForUpdates env (some nameWithoutVersion)
                      cataloglist with
                  | none => none
                  | some l1 =>
                  match updatesForInstalledVersion env nameWithoutVersion
                      instVers cataloglist with
                  | none => none
                  | some l2 =>
                  match runUpdates pi_cb (l1 ++ l2) installinfo with
                  | none => none
                  | some installinfo => some (true, installinfo)
                else if compareVersions env (some includedversion)
                    (some instVers) = 1 then
                  match lookForUpdatesForVersion env nameWithoutVersion
                      includedversion cataloglist with
                  | none => none
                  | some ul =>
                  match runUpdates pi_cb ul installinfo with
                  | none => none
                  | some installinfo => some (true, installinfo)
                else some (true, installinfo)
          else some (false, installinfo)

/-- `processInstall`.  The `Nat` parameter is recursion fuel; `none`
models an uncaught exception or unbounded recursion. -/
def processInstall (env : Env) :
    Nat → String → List String → InstallInfo → Option (Bool × InstallInfo)
  | 0, _, _, _ => none
  | Nat.succ fuel, manifestitem, cataloglist, installinfo =>
    let manifestitemname := pyBasename manifestitem
    match nameAndVersion manifestitemname with
    | none => none
    | some (nameWithoutVersion, includedversion) =>
    if manifestitemname ∈ installinfo.processed_installs then
      some (true, installinfo)
    else if nameWithoutVersion ∈ installinfo.processed_uninstalls then
      some (false, installinfo)
    else
      match getItemDetail env manifestitem cataloglist "" with
      | none => none
      | some none => some (false, installinfo)
      | some (some item_pl) =>
        processInstallCore env
          (fun d ii => processInstall env fuel d cataloglist ii)
          item_pl nameWithoutVersion includedversion cataloglist
          (if manifestitemname ∈ installinfo.managed_updates then installinfo
           else { installinfo with processed_installs :=
                    installinfo.processed_installs ++ [manifestitemname] })

/-- `processManagedUpdate` (updatecheck.py:1246-1288): only enqueue an
update-install when some version is already on disk; record the name in
`managed_updates` first. -/
def processManagedUpdate (env : Env) (fuel : Nat) (manifestitem : String)
    (cataloglist : List String) (installinfo : InstallInfo) :
    Option InstallInfo :=
  let manifestitemname := pyBasename manifestitem
  if manifestitemname ∈ installinfo.managed_updates then some installinfo
  else if manifestitemname ∈ installinfo.processed_installs then
    some installinfo
  else if manifestitemname ∈ installinfo.processed_uninstalls then
    some installinfo
  else
    match getItemDetail env manifestitem cataloglist "" with
    | none => none
    | some none => some installinfo
    | some (some item_pl) =>
      if someVersionInstalled env item_pl then
        let ii := { installinfo with managed_updates :=
          installinfo.managed_updates ++ [manifestitemname] }
        match processInstall env fuel manifestitem cataloglist ii with
        | none => none
        | some (_, ii') => some ii'
      else some installinfo

end Munki

namespace Munki

/-! ## RemovalResolver — `processRemoval` (updatecheck.py:1762-2050). -/

/-- The list comprehension `[nameAndVersion(item)[0] for item in
installinfo['processed_installs']]` (updatecheck.py:1789-1790). -/
def basesOf : List String → Option (List String)
  | [] => some []
  | s :: rest =>
    match nameAndVersion s with
    | none => none
    | some (b, _) => (basesOf rest).map (b :: ·)

/-- The `for item in infoitems` evidence scan (updatecheck.py:
1825-1834): first item showing install evidence, if any. -/
def findEvidence (env : Env) : List MunkiItem → Option (Option MunkiItem)
  | [] => some none
  | it :: rest =>
    match evidenceThisIsInstalled env it with
    | none => none
    | some e => if e then some (some it) else findEvidence env rest

/-- Uninstall-method determination (updatecheck.py:1848-1877).  Returns
`some (method, packagesToRemove)` when an `uninstall_item` was matched,
`none` (inner) when the call must fail; outer `none` is a crash
(KeyError in `getReceiptsToRemove`). -/
def determineUninstall (env : Env) (item : MunkiItem) :
    Option (Option (String × List String)) :=
  if item.uninstallable ∧ item.uninstall_method.isSome then
    let um := item.uninstall_method.getD ""
    if um = "removepackages" then
      match getReceiptsToRemove env item with
      | none => none
      | some pkgs =>
        if pkgs ≠ [] then some (some (um, pkgs)) else some none
    else if pyStartsWith um "Adobe" then some (some (um, []))
    else if um = "remove_copied_items" ∨ um = "remove_app" ∨
        um = "uninstall_script" then some (some (um, []))
    else if env.pathExists um ∧ env.accessXOK um then some (some (um, []))
    else some none
  else some none

/-- Python `x in v` where `x` itself may be `None`
(`uninstall_item.get('name') in item_pl['requires']`): `None` inside a
string raises TypeError; `None` inside a list of strings is just
`False`. -/
def pyMemOpt (x : Option String) (v : StrOrList) : Option Bool :=
  match x, v with
  | none, .str _ => none
  | none, _ => some false
  | some s, v => some (v.pyMem s)

/-- Inner `for item_pl in catalog_pl` dependents loop
(updatecheck.py:1903-1930).  `pn` is `processednames`; a failed
recursive removal breaks out of this catalog's loop with the flag
cleared.  The recursive call passes `item_pl.get('name')`, so a
`None` name crashes (`os.path.split(None)`). -/
def scanItemsForDependents
    (pr : String → InstallInfo → Option (Bool × InstallInfo)) (env : Env)
    (uname : Option String) (uwv alt : String) :
    List MunkiItem → List (Option String) → InstallInfo → Bool →
    Option (List (Option String) × InstallInfo × Bool)
  | [], pn, ii, ok => some (pn, ii, ok)
  | it :: rest, pn, ii, ok =>
    if it.name ∈ pn then
      scanItemsForDependents pr env uname uwv alt rest pn ii ok
    else
      match it.requires with
      | .absent =>
        scanItemsForDependents pr env uname uwv alt rest (pn ++ [it.name]) ii ok
      | req =>
        match pyMemOpt uname req with
        | none => none
        | some hit1 =>
        if hit1 ∨ req.pyMem uwv ∨ req.pyMem alt then
          match evidenceThisIsInstalled env it with
          | none => none
          | some ev =>
          if ev then
            match it.name with
            | none => none
            | some nm =>
            match pr nm ii with
            | none => none
            | some (s, ii') =>
            if s then
              scanItemsForDependents pr env uname uwv alt rest (pn ++ [it.name]) ii' ok
            else some (pn, ii', false)
          else
            scanItemsForDependents pr env uname uwv alt rest (pn ++ [it.name]) ii ok
        else
          scanItemsForDependents pr env uname uwv alt rest (pn ++ [it.name]) ii ok

/-- Outer `for catalogname in cataloglist` dependents loop
(updatecheck.py:1899-1930): re-reads each catalog from disk
(unreadable file = crash); `processednames` persists across catalogs,
and a break in one catalog does not stop the scan of later ones. -/
def scanCatalogsForDependents
    (pr : String → InstallInfo → Option (Bool × InstallInfo)) (env : Env)
    (uname : Option String) (uwv alt : String) :
    List String → List (Option String) → InstallInfo → Bool →
    Option (InstallInfo × Bool)
  | [], _, ii, ok => some (ii, ok)
  | c :: rest, pn, ii, ok =>
    match env.diskCatalogs c with
    | none => none
    | some items =>
    match scanItemsForDependents pr env uname uwv alt items pn ii ok with
    | none => none
    | some (pn', ii', ok') =>
      scanCatalogsForDependents pr env uname uwv alt rest pn' ii' ok'

/-- The shared-receipt reference-count loop (updatecheck.py:1968-1987):
drop this item's reference from each package's list (`list.remove`
raises ValueError when absent → crash); packages whose reference list
becomes empty are queued for real removal. -/
def removePkgReferences (name : String) :
    List String → List (String × List String) →
    Option (List String × List (String × List String))
  | [], refs => some ([], refs)
  | pkg :: rest, refs =>
    match assocFind refs pkg with
    | none => removePkgReferences name rest refs   -- warning only
    | some lst =>
      if name ∈ lst then
        let lst' := lst.erase name
        let refs' := refs.map (fun e => if e.1 = pkg then (e.1, lst') else e)
        match removePkgReferences name rest refs' with
        | none => none
        | some (really, refsF) =>
          if lst' = [] then some (pkg :: really, refsF)
          else some (really, refsF)
      else none

/-- The `optionalKeys` copy loop of `processRemoval`
(updatecheck.py:1957-1966), restricted to the carried fields. -/
def copyOptionalRemovalKeys (item : MunkiItem) (iteminfo : ItemInfo) :
    ItemInfo :=
  let iteminfo :=
    if item.installs.isSome then { iteminfo with installs := item.installs }
    else iteminfo
  let iteminfo :=
    if item.requires ≠ .absent then { iteminfo with requires := item.requires }
    else iteminfo
  if item.update_for ≠ .absent then
    { iteminfo with update_for := item.update_for }
  else iteminfo

/-- The base removal `iteminfo` record (updatecheck.py:1938-1966):
name, display name, description, the unattended flag, and the copied
optional keys. -/
def removalIteminfo (item : MunkiItem) : ItemInfo :=
  let iteminfo : ItemInfo :=
    { name := item.name.getD ""
      display_name := item.display_name.getD ""
      description := "Will be removed." }
  let iteminfo :=
    if (item.unattended_uninstall ∨ item.forced_uninstall) ∧
        ¬ optStrTruthy item.RestartAction then
      { iteminfo with unattended_uninstall := true }
    else iteminfo
  copyOptionalRemovalKeys item iteminfo

/-- Final part of `processRemoval` (updatecheck.py:2029-2050): the
update-cascade removals and the final record append. -/
def processRemovalTail (env : Env)
    (pr : String → InstallInfo → Option (Bool × InstallInfo))
    (item : MunkiItem) (unameOpt : Option String) (uwv alt : String)
    (cataloglist : List String) (iteminfo : ItemInfo)
    (installinfo : InstallInfo) : Option (Bool × InstallInfo) :=
  match lookForUpdates env unameOpt cataloglist with
  | none => none
  | some l1 =>
  match lookForUpdates env (some uwv) cataloglist with
  | none => none
  | some l2 =>
  match lookForUpdates env (some alt) cataloglist with
  | none => none
  | some l3 =>
  match runUpdates pr (l1 ++ l2 ++ l3) installinfo with
  | none => none
  | some installinfo =>
  let iteminfo := { iteminfo with
    installed := some true
    installed_version := item.version }
  let iteminfo := match item.RestartAction with
    | some ra => { iteminfo with RestartAction := some ra }
    | none => iteminfo
  some (true, { installinfo with removals :=
    installinfo.removals ++ [iteminfo] })

/-- Tail of `processRemoval` (updatecheck.py:1996-2050): method-specific
payload info, then the update cascade and the final append. -/
def processRemovalFinish (env : Env)
    (pr : String → InstallInfo → Option (Bool × InstallInfo))
    (item : MunkiItem) (uninstallmethod : String)
    (unameOpt : Option String) (uwv alt : String)
    (cataloglist : List String) (iteminfo : ItemInfo)
    (installinfo : InstallInfo) : Option (Bool × InstallInfo) :=
  let iteminfo := { iteminfo with uninstall_method := some uninstallmethod }
  if pyStartsWith uninstallmethod "Adobe" then
    if item.adobe_install_info.isSome then
      processRemovalTail env pr item unameOpt uwv alt cataloglist
        { iteminfo with adobe_install_info := item.adobe_install_info }
        installinfo
    else
      match (if item.uninstaller_item_location.isSome then
               item.uninstaller_item_location
             else item.installer_item_location) with
      | none => none   -- KeyError on installer_item_location
      | some location =>
        match download_installeritem env item true with
        | .ok _ =>
          processRemovalTail env pr item unameOpt uwv alt cataloglist
            { iteminfo with
              uninstaller_item := some (pyBasename location)
              adobe_package_name := some (item.adobe_package_name.getD "") }
            installinfo
        | _ => some (false, installinfo)   -- fetch exceptions
  else if uninstallmethod = "remove_copied_items" then
    processRemovalTail env pr item unameOpt uwv alt cataloglist
      { iteminfo with items_to_remove := some (item.items_to_copy.getD []) }
      installinfo
  else if uninstallmethod = "remove_app" then
    if optListTruthy item.installs then
      processRemovalTail env pr item unameOpt uwv alt cataloglist
        { iteminfo with remove_app_info := (item.installs.getD []).head? }
        installinfo
    else
      processRemovalTail env pr item unameOpt uwv alt cataloglist iteminfo
        installinfo
  else if uninstallmethod = "uninstall_script" then
    processRemovalTail env pr item unameOpt uwv alt cataloglist
      { iteminfo with
        uninstall_script := some (item.uninstall_script.getD "") }
      installinfo
  else
    processRemovalTail env pr item unameOpt uwv alt cataloglist iteminfo
      installinfo

/-- Body of `processRemoval` after the two early-exit guards and the
`processed_uninstalls` append (updatecheck.py:1806-2050). -/
def processRemovalCore (env : Env)
    (pr : String → InstallInfo → Option (Bool × InstallInfo))
    (manifestitemname includedversion : String)
    (cataloglist : List String) (installinfo : InstallInfo) :
    Option (Bool × InstallInfo) :=
  match (if includedversion ≠ "" then
           (getItemDetail env manifestitemname cataloglist
             includedversion).map Option.toList
         else getAllItemsWithName env manifestitemname cataloglist) with
  | none => none
  | some infoitems =>
  if infoitems = [] then some (false, installinfo)
  else
    match findEvidence env infoitems with
    | none => none
    | some none =>
      some (true, { installinfo with removals :=
        installinfo.removals ++
          [{ name := manifestitemname, installed := some false }] })
    | some (some item) =>
      match determineUninstall env item with
      | none => none
      | some none => some (false, installinfo)
      | some (some (uninstallmethod, packagesToRemove)) =>
        let unameOpt := item.name
        let uwv := pyRepr item.name ++ "-" ++ pyRepr item.version
        let alt := pyRepr item.name ++ "--" ++ pyRepr item.version
        match scanCatalogsForDependents pr env
            unameOpt uwv alt cataloglist [] installinfo true with
        | none => none
        | some (installinfo, depsOK) =>
        if depsOK then
          let iteminfo := removalIteminfo item
          if packagesToRemove ≠ [] then
            match removePkgReferences iteminfo.name packagesToRemove
                installinfo.pkg_references with
            | none => none
            | some (reallyRemove, refs') =>
            let installinfo :=
              { installinfo with pkg_references := refs' }
            if reallyRemove = [] then some (false, installinfo)
            else
              processRemovalFinish env pr
                item uninstallmethod unameOpt uwv alt cataloglist
                { iteminfo with packages := some reallyRemove } installinfo
          else
            processRemovalFinish env pr
              item uninstallmethod unameOpt uwv alt cataloglist
              iteminfo installinfo
        else some (false, installinfo)

/-- `processRemoval`. -/
def processRemoval (env : Env) :
    Nat → String → List String → InstallInfo → Option (Bool × InstallInfo)
  | 0, _, _, _ => none
  | Nat.succ fuel, manifestitem, cataloglist, installinfo =>
    let mwv := pyBasename manifestitem
    match nameAndVersion mwv with
    | none => none
    | some (manifestitemname, includedversion) =>
    match basesOf installinfo.processed_installs with
    | none => none
    | some bases =>
    if manifestitemname ∈ bases then some (false, installinfo)
    else if manifestitemname ∈ installinfo.processed_uninstalls then
      some (true, installinfo)
    else
      processRemovalCore env
        (fun n ii => processRemoval env fuel n cataloglist ii)
        manifestitemname includedversion cataloglist
        { installinfo with processed_uninstalls :=
          installinfo.processed_uninstalls ++ [manifestitemname] }

/-- One manifest-list entry dispatch, as done by `processManifestForKey`
(updatecheck.py:1737-1751); boolean results are discarded. -/
inductive Request
  | install (manifestitem : String) (cataloglist : List String)
  | removal (manifestitem : String) (cataloglist : List String)
  | update (manifestitem : String) (cataloglist : List String)

/-- A run: a sequence of manifest-entry dispatches threaded through one
`installinfo`. -/
def runRequests (env : Env) (fuel : Nat) :
    List Request → InstallInfo → Option InstallInfo
  | [], ii => some ii
  | .install m c :: rest, ii =>
    match processInstall env fuel m c ii with
    | none => none
    | some (_, ii') => runRequests env fuel rest ii'
  | .removal m c :: rest, ii =>
    match processRemoval env fuel m c ii with
    | none => none
    | some (_, ii') => runRequests env fuel rest ii'
  | .update m c :: rest, ii =>
    match processManagedUpdate env fuel m c ii with
    | none => none
    | some ii' => runRequests env fuel rest ii'

end Munki

namespace Munki

/-! ## Concrete fixtures used by witnesses and counterexamples. -/

/-- A baseline environment with plain string comparison as the version
ordering and empty/constant collaborators. -/
def testEnvBase : Env :=
  { vcmp := fun a b => compare (a.getD "") (b.getD "")
    machineOSVers := "10.6"
    machineArch := "i386"
    catalogArrays := []
    diskCatalogs := fun _ => some []
    appleUpdates := []
    compareItemVersion := fun _ => some 1
    compareReceiptVersion := fun _ => some 1
    pathExists := fun _ => false
    accessXOK := fun _ => false
    installed_names := []
    receipts_for_name := []
    download := fun _ => .ok true
    downloadUninst := fun _ => .ok true
    downloadSpeed := fun _ => 0
    installedVersionOf := fun _ => "UNKNOWN" }

/-- Item `ItemA` requiring the nowhere-defined `ItemB` (claim C1). -/
def itemReqA : MunkiItem :=
  { name := some "ItemA", version := some "1.0",
    requires := .list ["ItemB"] }

/-- Independently requested `ItemC` (claim C1). -/
def itemIndC : MunkiItem := { name := some "ItemC", version := some "1.0" }

def envMissingDep : Env :=
  { testEnvBase with catalogArrays := [("cat", [itemReqA, itemIndC])] }

/-- Item `Foo` version `2` (claim C2). -/
def itemFooV2 : MunkiItem := { name := some "Foo", version := some "2" }

def envFooV2 : Env :=
  { testEnvBase with catalogArrays := [("cat", [itemFooV2])] }

/-- Item `Foo` needing install, with an installer payload (claim C4). -/
def itemFooDl : MunkiItem :=
  { name := some "Foo", version := some "1.0",
    installer_item_location := some "apps/foo.dmg",
    installs := some [{ type := some "application",
                        path := some "/Applications/Foo.app",
                        CFBundleShortVersionString := some "1.0" }] }

def envFooDl : Env :=
  { testEnvBase with
    catalogArrays := [("cat", [itemFooDl])]
    compareItemVersion := fun _ => some 0 }

/-- An item record with no `name` key (claims C7 witness context). -/
def itemNamedBar : MunkiItem := { name := some "Bar", version := some "1.0" }

def envNamedBar : Env :=
  { testEnvBase with catalogArrays := [("cat", [itemNamedBar])] }

/-- Item `Gone`, removable by receipts, sharing package `pkg.shared`
(claim C6). -/
def itemGone : MunkiItem :=
  { name := some "Gone", version := some "1.0",
    receipts := some [{ packageid := some "pkg.shared",
                        version := some "1.0" }],
    uninstallable := true,
    uninstall_method := some "removepackages" }

def envGone : Env :=
  { testEnvBase with
    catalogArrays := [("cat", [itemGone])]
    installed_names := ["Gone"]
    receipts_for_name := [("Gone", ["pkg.shared"])] }

/-- An updater item whose `update_for` is a bare string (claim C5). -/
def itemStrUpdater : MunkiItem :=
  { name := some "Patch", version := some "1.1", update_for := .str "Foo" }

/-- Force-install record with a passed deadline and no RestartAction
(claims C3/C9). -/
def fiRecPlain : FIRecord :=
  { name := "A", force_install_after_date := some 0,
    RestartAction := none, unattended_install := false }

/-- Force-install record with a passed deadline requiring restart
(claim C3). -/
def fiRecRestart : FIRecord :=
  { name := "B", force_install_after_date := some 0,
    RestartAction := some "RequireRestart", unattended_install := false }

/-- An installed `pkg_references` table in which `pkg.shared` is
referenced by `Gone` and one other item (claim C6). -/
def gonePkgState : InstallInfo :=
  { pkg_references := [("pkg.shared", ["Gone", "Other"])] }

/-- `gonePkgState` after `processRemoval` has marked `Gone` processed
(claim C6). -/
def goneMidState : InstallInfo :=
  { gonePkgState with processed_uninstalls := ["Gone"] }

/-- State after a first successful `processInstall` of `Bar` (claim C7). -/
def barState : InstallInfo :=
  { processed_installs := ["Bar"],
    managed_installs := [installedIteminfo itemNamedBar "1.0"] }

/-- State after `processManagedUpdate` of `Bar` from the empty state
(claim C10): the name lands in `managed_updates`, not in
`processed_installs`. -/
def barMUState : InstallInfo :=
  { managed_updates := ["Bar"],
    managed_installs := [installedIteminfo itemNamedBar "1.0"] }

/-- `barMUState` after a subsequent `processRemoval` of `Bar`
(claim C10). -/
def barMURemoved : InstallInfo :=
  { managed_updates := ["Bar"],
    managed_installs := [installedIteminfo itemNamedBar "1.0"],
    processed_uninstalls := ["Bar"],
    removals := [{ name := "Bar", installed := some false }] }

/-- A state whose `processed_installs` has base name `Foo` (claim C2). -/
def fooGuardState : InstallInfo := { processed_installs := ["Foo-1.0"] }

/-- The state produced by the C2 counterexample run. -/
def fooRunState : InstallInfo :=
  (runRequests envFooV2 3
    [.removal "Foo-2-3" ["cat"], .install "Foo-2" ["cat"]] {}).getD {}

/-! ## Specification-side functions used to state amended claims. -/

/-- Deadline of the record has passed. -/
def deadlinePassed (now : Int) (r : FIRecord) : Bool :=
  match r.force_install_after_date with
  | some d => now ≥ d
  | none => false

/-- Deadline of the record is within the warning window ending at
`nowX`. -/
def withinWindowX (nowX : Int) (r : FIRecord) : Bool :=
  match r.force_install_after_date with
  | some d => nowX ≥ d
  | none => false

/-- Urgency classification the loop assigns to one passed-deadline
record. -/
def fiClassify (r : FIRecord) : String :=
  match r.RestartAction with
  | some ra =>
    if ra = "RequireLogout" then "logout"
    else if ra = "RequireRestart" then "restart"
    else "now"
  | none => "now"

/-- The urgency `checkForceInstallPackages` actually computes, in
closed form: the classification of the last record whose deadline has
passed; otherwise `"soon"` when some record is within the warning
window (and the accumulator was empty); otherwise the accumulator. -/
def fiExpected (now nowX : Int) (r0 : Option String)
    (l : List FIRecord) : Option String :=
  match (l.filter (deadlinePassed now)).getLast? with
  | some r => some (fiClassify r)
  | none =>
    if l.any (withinWindowX nowX) then
      (if r0 = none then some "soon" else r0)
    else r0

/-- `normalizeUpdateFor` leaves every field but `update_for` unchanged;
used to state the frame property of claim C5. -/
def onlyUpdateForDiffers (x y : MunkiItem) : Prop :=
  ∃ uf, y = { x with update_for := uf }

/-! ## State-evolution invariants of the resolvers. -/

/-- How `processInstall` may change the shared state: `managed_updates`
and `processed_uninstalls` are untouched, `managed_installs` and
`processed_installs` only grow, and every name added to
`processed_installs` was, at call time, neither a managed-update name
nor (by its base name) pending uninstall. -/
def StepOK (s s' : InstallInfo) : Prop :=
  s'.managed_updates = s.managed_updates ∧
  s'.processed_uninstalls = s.processed_uninstalls ∧
  (∃ mi, s'.managed_installs = s.managed_installs ++ mi) ∧
  ∃ add, s'.processed_installs = s.processed_installs ++ add ∧
    ∀ n ∈ add, n ∉ s.managed_updates ∧
      ∀ b v, nameAndVersion n = some (b, v) → b ∉ s.processed_uninstalls

/-- How `processRemoval` may change the shared state: `managed_updates`,
`processed_installs` and `managed_installs` are untouched, and every
name added to `processed_uninstalls` was, at call time, not among the
base names of `processed_installs`. -/
def RemOK (s s' : InstallInfo) : Prop :=
  s'.managed_updates = s.managed_updates ∧
  s'.processed_installs = s.processed_installs ∧
  s'.managed_installs = s.managed_installs ∧
  ∃ add, s'.processed_uninstalls = s.processed_uninstalls ++ add ∧
    ∀ u ∈ add, ∃ bl, basesOf s.processed_installs = some bl ∧ u ∉ bl

/-- The mutual-guard invariant relating the two processed lists: no
entry of `processed_installs` has its base name in
`processed_uninstalls`. -/
def GuardInv (s : InstallInfo) : Prop :=
  ∀ n ∈ s.processed_installs, ∀ b v, nameAndVersion n = some (b, v) →
    b ∉ s.processed_uninstalls

end Munki

namespace Munki

/-! ## Theorems for the claims. -/

/-- C8: `nameAndVersion` is claimed total, returning `(input, "")` when
no delimiter is followed by a digit-initial token — including inputs
ending in `-` or `--`.  The code instead raises IndexError (`vers[0]`
on the empty token) on such inputs, while handling the documented
examples as specified. -/
theorem C8_nameAndVersion_crashes_on_trailing_delimiter :
    nameAndVersion "Foo-" = none ∧
    nameAndVersion "Foo--" = none ∧
    nameAndVersion "TextWrangler-2.3b1" = some ("TextWrangler", "2.3b1") ∧
    nameAndVersion "AdobePhotoshopCS3--11.2.1" =
      some ("AdobePhotoshopCS3", "11.2.1") ∧
    nameAndVersion "PlainName" = some ("PlainName", "") := by
  refine ⟨by decide, by decide, by decide, by decide, by decide⟩

/-- C5 counterexample: `makeCatalogDB` rewrites a string-valued
`update_for` of an updater item to a one-element list, in place, so the
input item records are not all unchanged. -/
theorem C5_counterexample :
    (makeCatalogDB [itemStrUpdater]).items ≠ [itemStrUpdater] ∧
    (makeCatalogDB [itemStrUpdater]).items =
      [{ itemStrUpdater with update_for := .list ["Foo"] }] := by
  refine ⟨?_, rfl⟩
  decide

/-- C5 amended: `makeCatalogDB` leaves every input item unchanged
except that a truthy string-valued `update_for` is replaced, in that
item only and in that field only, by the one-element list containing
it; items whose `update_for` is not a string are returned unchanged. -/
theorem normalizeUpdateFor_cases (item : MunkiItem) :
    normalizeUpdateFor item = item ∨
    ∃ s, s ≠ "" ∧ item.update_for = .str s ∧
      normalizeUpdateFor item = { item with update_for := .list [s] } := by
  cases h : item.update_for with
  | absent => left; simp [normalizeUpdateFor, h, StrOrList.truthy]
  | list l => left; simp [normalizeUpdateFor, h, StrOrList.truthy]
  | str s =>
    by_cases hs : s = ""
    · left; simp [normalizeUpdateFor, h, StrOrList.truthy, hs]
    · right
      exact ⟨s, hs, rfl, by simp [normalizeUpdateFor, h, StrOrList.truthy, hs]⟩

/-- C5 amended: `makeCatalogDB` leaves every input item unchanged
except that a truthy string-valued `update_for` is replaced, in that
item only and in that field only, by the one-element list containing
it; items whose `update_for` is not a string are returned unchanged. -/
theorem C5_amended (catalogitems : List MunkiItem) :
    (makeCatalogDB catalogitems).items =
      catalogitems.map normalizeUpdateFor ∧
    (∀ item ∈ catalogitems,
      onlyUpdateForDiffers item (normalizeUpdateFor item)) ∧
    (∀ item ∈ catalogitems, ∀ s, item.update_for = .str s → s ≠ "" →
      normalizeUpdateFor item = { item with update_for := .list [s] }) ∧
    (∀ item ∈ catalogitems, (∀ s, item.update_for ≠ .str s) →
      normalizeUpdateFor item = item) := by
  refine ⟨rfl, ?_, ?_, ?_⟩
  · intro item _
    rcases normalizeUpdateFor_cases item with h | ⟨s, _, _, h⟩
    · exact ⟨item.update_for, by rw [h]⟩
    · exact ⟨.list [s], by rw [h]⟩
  · intro item _ s hs hne
    simp [normalizeUpdateFor, hs, StrOrList.truthy, hne]
  · intro item _ hnostr
    rcases normalizeUpdateFor_cases item with h | ⟨t, _, huf, _⟩
    · exact h
    · exact absurd huf (hnostr t)

/-- C9 counterexample: a record whose deadline has passed, whose
`RestartAction` is unset but whose `unattended_install` flag is already
true yields urgency `"now"` with no mutation reported (`writeback`
stays false), contradicting the claim that a mutation is always
reported for such records. -/
theorem C9_counterexample :
    checkForceInstallPackages 10
      [{ fiRecPlain with unattended_install := true }] =
    (some "now", [{ fiRecPlain with unattended_install := true }], false) := by
  rfl

/-- C9 amended: for a single record with a passed deadline, unset
`RestartAction`, and `unattended_install` not already set, the check
returns urgency `"now"`, sets the record's `unattended_install` flag,
and reports the mutation. -/
theorem C9_amended (name : String) (d now : Int) (h : now ≥ d) :
    checkForceInstallPackages now
      [{ name := name, force_install_after_date := some d,
         RestartAction := none, unattended_install := false }] =
    (some "now",
     [{ name := name, force_install_after_date := some d,
        RestartAction := none, unattended_install := true }], true) := by
  simp only [checkForceInstallPackages, forceInstallLoop, forceInstallStep]
  simp [h]

theorem C9_amended_witness :
    (10 : Int) ≥ 0 ∧
    checkForceInstallPackages 10
      [{ name := "Qux", force_install_after_date := some 0,
         RestartAction := none, unattended_install := false }] =
    (some "now",
     [{ name := "Qux", force_install_after_date := some 0,
        RestartAction := none, unattended_install := true }], true) :=
  ⟨by norm_num, C9_amended "Qux" 0 10 (by norm_num)⟩

/-- C3 counterexample: with two records whose deadlines have both
passed — the first with no `RestartAction`, the second requiring a
restart — the returned urgency depends on list order, and for the order
(plain, restart) it is `"restart"` rather than the most urgent value
`"now"` under the claimed order now > logout/restart > soon > none. -/
theorem C3_counterexample :
    (checkForceInstallPackages 10 [fiRecPlain, fiRecRestart]).1 =
      some "restart" ∧
    (checkForceInstallPackages 10 [fiRecRestart, fiRecPlain]).1 =
      some "now" := by
  exact ⟨rfl, rfl⟩

end Munki

namespace Munki

/-- What one loop iteration does to the urgency accumulator. -/
theorem forceInstallStep_fst (now nowX : Int) (r0 : Option String)
    (wb : Bool) (r : FIRecord) :
    ((forceInstallStep now nowX (r0, wb) r).1).1 =
      (if deadlinePassed now r then some (fiClassify r)
       else if withinWindowX nowX r ∧ r0 = none then some "soon"
       else r0) := by
  unfold forceInstallStep deadlinePassed withinWindowX fiClassify
  cases hd : r.force_install_after_date with
  | none => simp
  | some d =>
    by_cases h1 : now ≥ d
    · cases hra : r.RestartAction with
      | none =>
        by_cases hu : r.unattended_install <;> simp [h1, hu]
      | some ra =>
        by_cases hlo : ra = "RequireLogout"
        · simp [h1, hlo]
        · by_cases hre : ra = "RequireRestart"
          · simp [h1, hlo, hre]
          · by_cases hemp : ra = ""
            · by_cases hu : r.unattended_install <;>
                simp [h1, hlo, hre, hemp, hu]
            · simp [h1, hlo, hre, hemp]
    · simp [h1]

theorem getLastD_of_getLast?_eq_some {α : Type} {l : List α} {x d : α}
    (h : l.getLast? = some x) : l.getLastD d = x := by
  cases l with
  | nil => simp [List.getLast?] at h
  | cons a t => simp [List.getLastD_eq_getLast?, h]

/-- Pushing one record into the expected-urgency function. -/
theorem fiExpected_cons (now nowX : Int) (r0 : Option String)
    (r : FIRecord) (rest : List FIRecord) :
    fiExpected now nowX
      (if deadlinePassed now r then some (fiClassify r)
       else if withinWindowX nowX r ∧ r0 = none then some "soon"
       else r0) rest
    = fiExpected now nowX r0 (r :: rest) := by
  unfold fiExpected
  by_cases hp : deadlinePassed now r
  · simp only [hp, if_true, List.filter_cons, hp]
    cases hl : (rest.filter (deadlinePassed now)).getLast? with
    | some rl =>
      have : ((r :: rest.filter (deadlinePassed now)).getLast?) = some rl := by
        cases hfe : rest.filter (deadlinePassed now) with
        | nil => rw [hfe] at hl; simp [List.getLast?] at hl
        | cons b t =>
          rw [hfe] at hl
          simpa [List.getLast?_cons_cons] using hl
      simp [hl, this]
    | none =>
      have hfe : rest.filter (deadlinePassed now) = [] := by
        simpa [List.getLast?_eq_none_iff] using hl
      simp [hl, hfe, List.getLast?]
  · simp only [hp, if_false, List.filter_cons]
    by_cases hw : withinWindowX nowX r ∧ r0 = none
    · simp only [hw, if_true]
      cases hl : (rest.filter (deadlinePassed now)).getLast? with
      | some rl => simp [hp, hl]
      | none => simp [hp, hl, hw.1, hw.2]
    · simp only [hw, if_false]
      cases hl : (rest.filter (deadlinePassed now)).getLast? with
      | some rl => simp [hp, hl]
      | none =>
        rcases not_and_or.mp hw with hnw | hr0
        · simp [hp, hl, hnw]
        · by_cases ha : rest.any (withinWindowX nowX) <;>
            simp [hp, hl, ha, hr0]
  
theorem forceInstallLoop_fst (now nowX : Int) :
    ∀ (l : List FIRecord) (r0 : Option String) (wb : Bool),
      ((forceInstallLoop now nowX (r0, wb) l).1).1 =
        fiExpected now nowX r0 l := by
  intro l
  induction l with
  | nil => intro r0 wb; simp [forceInstallLoop, fiExpected]
  | cons r rest ih =>
    intro r0 wb
    have step : forceInstallLoop now nowX (r0, wb) (r :: rest) =
        ((forceInstallLoop now nowX
            (forceInstallStep now nowX (r0, wb) r).1 rest).1,
         (forceInstallStep now nowX (r0, wb) r).2 ::
           (forceInstallLoop now nowX
             (forceInstallStep now nowX (r0, wb) r).1 rest).2) := by
      rfl
    rw [step]
    have h2 := ih ((forceInstallStep now nowX (r0, wb) r).1).1
      ((forceInstallStep now nowX (r0, wb) r).1).2
    simp only [Prod.mk.eta] at h2
    rw [h2, forceInstallStep_fst]
    exact fiExpected_cons now nowX r0 r rest

end Munki

namespace Munki

/-- C3 amended: the urgency returned by `checkForceInstallPackages` is
not the maximum over the list — among records whose deadline has
passed, the classification (`now`/`logout`/`restart`) of the *last*
such record in list order wins; `"soon"` is returned exactly when no
deadline has passed but some deadline is within the warning window, so
a passed-deadline urgency is never downgraded to `"soon"` or `none`,
but the now/logout/restart family is last-writer-wins, not
most-urgent-wins. -/
theorem C3_amended (now : Int) (records : List FIRecord) :
    (checkForceInstallPackages now records).1 =
      (match (records.filter (deadlinePassed now)).getLast? with
       | some r => some (fiClassify r)
       | none =>
         if records.any (withinWindowX (now + 4 * 3600)) then some "soon"
         else none) := by
  have h := forceInstallLoop_fst now (now + 4 * 3600) records none false
  unfold checkForceInstallPackages
  simp only []
  rw [show (forceInstallLoop now (now + 4 * 3600) (none, false) records).1.1 =
        fiExpected now (now + 4 * 3600) none records from h]
  unfold fiExpected
  cases (records.filter (deadlinePassed now)).getLast? <;> simp

end Munki

namespace Munki

/-! ### Basic algebra of the state-evolution invariants. -/

theorem StepOK_refl (s : InstallInfo) : StepOK s s :=
  ⟨rfl, rfl, ⟨[], by simp⟩, [], by simp, by simp⟩

theorem StepOK_trans {s t u : InstallInfo} (h1 : StepOK s t)
    (h2 : StepOK t u) : StepOK s u := by
  obtain ⟨hmu1, hpu1, ⟨mi1, hmi1⟩, add1, ha1, hg1⟩ := h1
  obtain ⟨hmu2, hpu2, ⟨mi2, hmi2⟩, add2, ha2, hg2⟩ := h2
  refine ⟨hmu2.trans hmu1, hpu2.trans hpu1,
    ⟨mi1 ++ mi2, by rw [hmi2, hmi1, List.append_assoc]⟩,
    add1 ++ add2, by rw [ha2, ha1, List.append_assoc], ?_⟩
  intro n hn
  rcases List.mem_append.mp hn with h | h
  · exact hg1 n h
  · have h3 := hg2 n h
    rw [hmu1] at h3
    refine ⟨h3.1, ?_⟩
    intro b v hbv
    have := h3.2 b v hbv
    rwa [hpu1] at this

theorem StepOK_append_pi (s : InstallInfo) (n : String)
    (hmu : n ∉ s.managed_updates)
    (hbase : ∀ b v, nameAndVersion n = some (b, v) →
      b ∉ s.processed_uninstalls) :
    StepOK s { s with processed_installs := s.processed_installs ++ [n] } := by
  refine ⟨rfl, rfl, ⟨[], by simp⟩, [n], by simp, ?_⟩
  intro x hx
  rcases List.mem_singleton.mp hx with rfl
  exact ⟨hmu, hbase⟩

theorem StepOK_append_mi (s : InstallInfo) (r : ItemInfo) :
    StepOK s { s with managed_installs := s.managed_installs ++ [r] } :=
  ⟨rfl, rfl, ⟨[r], rfl⟩, [], by simp, by simp⟩

theorem GuardInv_of_StepOK {s s' : InstallInfo} (hs : StepOK s s')
    (h : GuardInv s) : GuardInv s' := by
  obtain ⟨_, hpu, _, add, ha, hg⟩ := hs
  intro n hn b v hnv
  rw [hpu]
  rw [ha] at hn
  rcases List.mem_append.mp hn with hmem | hmem
  · exact h n hmem b v hnv
  · exact (hg n hmem).2 b v hnv

theorem RemOK_refl (s : InstallInfo) : RemOK s s :=
  ⟨rfl, rfl, rfl, [], by simp, by simp⟩

theorem RemOK_trans {s t u : InstallInfo} (h1 : RemOK s t)
    (h2 : RemOK t u) : RemOK s u := by
  obtain ⟨hmu1, hpi1, hmi1, add1, ha1, hg1⟩ := h1
  obtain ⟨hmu2, hpi2, hmi2, add2, ha2, hg2⟩ := h2
  refine ⟨hmu2.trans hmu1, hpi2.trans hpi1, hmi2.trans hmi1,
    add1 ++ add2, by rw [ha2, ha1, List.append_assoc], ?_⟩
  intro u' hu
  rcases List.mem_append.mp hu with h | h
  · exact hg1 u' h
  · obtain ⟨bl, hbl, hnb⟩ := hg2 u' h
    rw [hpi1] at hbl
    exact ⟨bl, hbl, hnb⟩

theorem RemOK_same_core {s s' : InstallInfo}
    (hmu : s'.managed_updates = s.managed_updates)
    (hpi : s'.processed_installs = s.processed_installs)
    (hmi : s'.managed_installs = s.managed_installs)
    (hpu : s'.processed_uninstalls = s.processed_uninstalls) :
    RemOK s s' :=
  ⟨hmu, hpi, hmi, [], by rw [hpu, List.append_nil], by simp⟩

theorem RemOK_append_pu (s : InstallInfo) (u : String)
    (bl : List String) (hb : basesOf s.processed_installs = some bl)
    (hu : u ∉ bl) :
    RemOK s { s with processed_uninstalls :=
      s.processed_uninstalls ++ [u] } := by
  refine ⟨rfl, rfl, rfl, [u], by simp, ?_⟩
  intro x hx
  rcases List.mem_singleton.mp hx with rfl
  exact ⟨bl, hb, hu⟩

theorem basesOf_mem : ∀ {l bl : List String},
    basesOf l = some bl → ∀ {n b v : String}, n ∈ l →
    nameAndVersion n = some (b, v) → b ∈ bl := by
  intro l
  induction l with
  | nil => intro bl h n b v hn; simp at hn
  | cons a t ih =>
    intro bl h n b v hn hnv
    simp only [basesOf] at h
    cases hav : nameAndVersion a with
    | none => rw [hav] at h; exact absurd h (by simp)
    | some p =>
      obtain ⟨ba, va⟩ := p
      rw [hav] at h
      cases hbt : basesOf t with
      | none => rw [hbt] at h; exact absurd h (by simp)
      | some blt =>
        rw [hbt] at h
        simp only [Option.map_some', Option.some.injEq] at h
        subst h
        rcases List.mem_cons.mp hn with rfl | hn
        · rw [hav] at hnv
          cases hnv
          exact List.mem_cons_self _ _
        · exact List.mem_cons_of_mem _ (ih hbt hn hnv)

theorem GuardInv_of_RemOK {s s' : InstallInfo} (hs : RemOK s s')
    (h : GuardInv s) : GuardInv s' := by
  obtain ⟨_, hpi, _, add, ha, hg⟩ := hs
  intro n hn b v hnv
  rw [hpi] at hn
  rw [ha]
  intro hmem
  rcases List.mem_append.mp hmem with hmem | hmem
  · exact h n hn b v hnv hmem
  · obtain ⟨bl, hbl, hnb⟩ := hg b hmem
    exact hnb (basesOf_mem hbl hn hnv)

/-! ### The loop combinators preserve any reflexive-transitive
relation preserved by their callback. -/

theorem runDeps_rel {R : InstallInfo → InstallInfo → Prop}
    (hrefl : ∀ s, R s s)
    (htrans : ∀ {a b c : InstallInfo}, R a b → R b c → R a c)
    {cb : String → InstallInfo → Option (Bool × InstallInfo)}
    (hcb : ∀ d ii r ii', cb d ii = some (r, ii') → R ii ii') :
    ∀ (l : List String) (ii : InstallInfo) (ok : Bool)
      (ii' : InstallInfo) (ok' : Bool),
      runDeps cb l ii ok = some (ii', ok') → R ii ii' := by
  intro l
  induction l with
  | nil =>
    intro ii ok ii' ok' h
    simp only [runDeps, Option.some.injEq, Prod.mk.injEq] at h
    rw [← h.1]
    exact hrefl ii
  | cons d rest ih =>
    intro ii ok ii' ok' h
    simp only [runDeps] at h
    cases hc : cb d ii with
    | none => rw [hc] at h; exact absurd h (by simp)
    | some p =>
      obtain ⟨sflag, ii1⟩ := p
      rw [hc] at h
      exact htrans (hcb d ii sflag ii1 hc) (ih ii1 _ ii' ok' h)

theorem runUpdates_rel {R : InstallInfo → InstallInfo → Prop}
    (hrefl : ∀ s, R s s)
    (htrans : ∀ {a b c : InstallInfo}, R a b → R b c → R a c)
    {cb : String → InstallInfo → Option (Bool × InstallInfo)}
    (hcb : ∀ u ii r ii', cb u ii = some (r, ii') → R ii ii') :
    ∀ (l : List String) (ii ii' : InstallInfo),
      runUpdates cb l ii = some ii' → R ii ii' := by
  intro l
  induction l with
  | nil =>
    intro ii ii' h
    simp only [runUpdates, Option.some.injEq] at h
    rw [← h]
    exact hrefl ii
  | cons u rest ih =>
    intro ii ii' h
    simp only [runUpdates] at h
    cases hc : cb u ii with
    | none => rw [hc] at h; exact absurd h (by simp)
    | some p =>
      obtain ⟨sflag, ii1⟩ := p
      rw [hc] at h
      exact htrans (hcb u ii sflag ii1 hc) (ih ii1 ii' h)

theorem scanItems_rel {R : InstallInfo → InstallInfo → Prop}
    (hrefl : ∀ s, R s s)
    (htrans : ∀ {a b c : InstallInfo}, R a b → R b c → R a c)
    {pr : String → InstallInfo → Option (Bool × InstallInfo)}
    (hpr : ∀ n ii r ii', pr n ii = some (r, ii') → R ii ii')
    (env : Env) (uname : Option String) (uwv alt : String) :
    ∀ (items : List MunkiItem) (pn : List (Option String))
      (ii : InstallInfo) (ok : Bool) (pn' : List (Option String))
      (ii' : InstallInfo) (ok' : Bool),
      scanItemsForDependents pr env uname uwv alt items pn ii ok =
        some (pn', ii', ok') → R ii ii' := by
  intro items
  induction items with
  | nil =>
    intro pn ii ok pn' ii' ok' h
    simp only [scanItemsForDependents, Option.some.injEq,
      Prod.mk.injEq] at h
    rw [← h.2.1]
    exact hrefl ii
  | cons it rest ih =>
    intro pn ii ok pn' ii' ok' h
    simp only [scanItemsForDependents] at h
    split at h
    · exact ih _ ii ok _ ii' ok' h
    · split at h
      · exact ih _ ii ok _ ii' ok' h
      · split at h
        · exact absurd h (by simp)
        · split at h
          · split at h
            · exact absurd h (by simp)
            · split at h
              · split at h
                · exact absurd h (by simp)
                · split at h
                  · exact absurd h (by simp)
                  · rename_i p hmc hpm hev hnm hprc
                    split at h
                    · rename_i hs
                      exact htrans (hpr _ ii _ _ hprc)
                        (ih _ _ ok _ ii' ok' h)
                    · simp only [Option.some.injEq, Prod.mk.injEq] at h
                      rw [← h.2.1]
                      exact hpr _ ii _ _ hprc
              · exact ih _ ii ok _ ii' ok' h
          · exact ih _ ii ok _ ii' ok' h

theorem scanCatalogs_rel {R : InstallInfo → InstallInfo → Prop}
    (hrefl : ∀ s, R s s)
    (htrans : ∀ {a b c : InstallInfo}, R a b → R b c → R a c)
    {pr : String → InstallInfo → Option (Bool × InstallInfo)}
    (hpr : ∀ n ii r ii', pr n ii = some (r, ii') → R ii ii')
    (env : Env) (uname : Option String) (uwv alt : String) :
    ∀ (cats : List String) (pn : List (Option String))
      (ii : InstallInfo) (ok : Bool) (ii' : InstallInfo) (ok' : Bool),
      scanCatalogsForDependents pr env uname uwv alt cats pn ii ok =
        some (ii', ok') → R ii ii' := by
  intro cats
  induction cats with
  | nil =>
    intro pn ii ok ii' ok' h
    simp only [scanCatalogsForDependents, Option.some.injEq,
      Prod.mk.injEq] at h
    rw [← h.1]
    exact hrefl ii
  | cons c rest ih =>
    intro pn ii ok ii' ok' h
    simp only [scanCatalogsForDependents] at h
    split at h
    · exact absurd h (by simp)
    · split at h
      · exact absurd h (by simp)
      · rename_i items hdc p hsc
        exact htrans
          (scanItems_rel hrefl htrans hpr env uname uwv alt _ _ ii ok
            _ _ _ hsc)
          (ih _ _ _ ii' ok' h)

end Munki

namespace Munki

/-! ### Master state-evolution lemma for `processInstall`. -/


set_option maxHeartbeats 4000000 in
theorem processInstallCore_StepOK (env : Env)
    {pi_cb : String → InstallInfo → Option (Bool × InstallInfo)}
    (hcb : ∀ d ii r ii', pi_cb d ii = some (r, ii') → StepOK ii ii')
    (item_pl : MunkiItem) (nwv iv : String) (c : List String)
    (s1 : InstallInfo) (b : Bool) (s' : InstallInfo)
    (h : processInstallCore env pi_cb item_pl nwv iv c s1 = some (b, s')) :
    StepOK s1 s' := by
  rw [processInstallCore] at h
  by_cases hii : isItemInInstallInfo env item_pl
      item_pl.version s1.managed_installs = true
  · rw [if_pos hii] at h
    simp only [Option.some.injEq, Prod.mk.injEq] at h
    rw [← h.2]; exact StepOK_refl s1
  · rw [if_neg hii] at h
    cases hrd : runDeps pi_cb (requiresList item_pl.requires) s1 true with
    | none => simp only [hrd] at h; exact Option.noConfusion h
    | some p2 =>
      obtain ⟨s2, depsMet⟩ := p2
      simp only [hrd] at h
      have hs2 : StepOK s1 s2 :=
        runDeps_rel StepOK_refl StepOK_trans hcb _ _ _ _ _ hrd
      cases depsMet with
      | false =>
        rw [if_neg Bool.false_ne_true] at h
        simp only [Option.some.injEq, Prod.mk.injEq] at h
        rw [← h.2]; exact hs2
      | true =>
        rw [if_pos rfl] at h
        by_cases his : installedState env item_pl = 0
        · rw [if_pos his] at h
          cases hdl : download_installeritem env item_pl false with
          | verificationError =>
            simp only [hdl] at h
            simp only [Option.some.injEq, Prod.mk.injEq] at h
            rw [← h.2]
            exact StepOK_trans hs2 (StepOK_append_mi s2 _)
          | curlError =>
            simp only [hdl] at h
            simp only [Option.some.injEq, Prod.mk.injEq] at h
            rw [← h.2]
            exact StepOK_trans hs2 (StepOK_append_mi s2 _)
          | downloadError msg =>
            simp only [hdl] at h
            simp only [Option.some.injEq, Prod.mk.injEq] at h
            rw [← h.2]
            exact StepOK_trans hs2 (StepOK_append_mi s2 _)
          | ok downloaded =>
            simp only [hdl] at h
            have hs3 : StepOK s1 { s2 with managed_installs :=
                s2.managed_installs ++
                  [downloadedIteminfo env item_pl downloaded] } :=
              StepOK_trans hs2 (StepOK_append_mi s2 _)
            generalize hg3 : { s2 with managed_installs :=
                s2.managed_installs ++
                  [downloadedIteminfo env item_pl downloaded] }
                = s3 at h hs3
            by_cases hivq : iv ≠ ""
            · rw [if_pos hivq] at h
              exact absurd h (by simp)
            · rw [if_neg hivq] at h
              cases hl1 : lookForUpdates env (some nwv) c with
              | none => simp only [hl1] at h; exact Option.noConfusion h
              | some l1 =>
                simp only [hl1] at h
                cases hl2 : lookForUpdatesForVersion env nwv
                    (item_pl.version.getD "UNKNOWN") c with
                | none => simp only [hl2] at h; exact Option.noConfusion h
                | some l2 =>
                  simp only [hl2] at h
                  cases hru : runUpdates pi_cb (l1 ++ l2) s3 with
                  | none => simp only [hru] at h; exact Option.noConfusion h
                  | some s4 =>
                    simp only [hru] at h
                    simp only [Option.some.injEq, Prod.mk.injEq] at h
                    rw [← h.2]
                    exact StepOK_trans hs3
                      (runUpdates_rel StepOK_refl StepOK_trans
                        hcb _ _ _ hru)
        · rw [if_neg his] at h
          cases hivs : installedVersionString env item_pl
              (installedState env item_pl) with
          | none => simp only [hivs] at h; exact Option.noConfusion h
          | some instVers =>
            simp only [hivs] at h
            have hs3 : StepOK s1 { s2 with managed_installs :=
                s2.managed_installs ++
                  [installedIteminfo item_pl instVers] } :=
              StepOK_trans hs2 (StepOK_append_mi s2 _)
            generalize hg3 : { s2 with managed_installs :=
                s2.managed_installs ++
                  [installedIteminfo item_pl instVers] }
                = s3 at h hs3
            by_cases hive : iv = ""
            · rw [if_pos hive] at h
              cases hl1 : lookForUpdates env (some nwv) c with
              | none => simp only [hl1] at h; exact Option.noConfusion h
              | some l1 =>
                simp only [hl1] at h
                cases hl2 : updatesForInstalledVersion env nwv
                    instVers c with
                | none => simp only [hl2] at h; exact Option.noConfusion h
                | some l2 =>
                  simp only [hl2] at h
                  cases hru : runUpdates pi_cb (l1 ++ l2) s3 with
                  | none => simp only [hru] at h; exact Option.noConfusion h
                  | some s4 =>
                    simp only [hru] at h
                    simp only [Option.some.injEq, Prod.mk.injEq] at h
                    rw [← h.2]
                    exact StepOK_trans hs3
                      (runUpdates_rel StepOK_refl StepOK_trans
                        hcb _ _ _ hru)
            · rw [if_neg hive] at h
              by_cases hcmp : compareVersions env (some iv)
                  (some instVers) = 1
              · rw [if_pos hcmp] at h
                cases hul : lookForUpdatesForVersion env nwv iv c with
                | none => simp only [hul] at h; exact Option.noConfusion h
                | some ul =>
                  simp only [hul] at h
                  cases hru : runUpdates pi_cb ul s3 with
                  | none => simp only [hru] at h; exact Option.noConfusion h
                  | some s4 =>
                    simp only [hru] at h
                    simp only [Option.some.injEq, Prod.mk.injEq] at h
                    rw [← h.2]
                    exact StepOK_trans hs3
                      (runUpdates_rel StepOK_refl StepOK_trans
                        hcb _ _ _ hru)
              · rw [if_neg hcmp] at h
                simp only [Option.some.injEq, Prod.mk.injEq] at h
                rw [← h.2]
                exact hs3

theorem processInstall_StepOK (env : Env) :
    ∀ (fuel : Nat) (m : String) (c : List String) (s : InstallInfo)
      (b : Bool) (s' : InstallInfo),
      processInstall env fuel m c s = some (b, s') → StepOK s s' := by
  intro fuel
  induction fuel with
  | zero => intro m c s b s' h; exact absurd h (by simp [processInstall])
  | succ fuel ih =>
    intro m c s b s' h
    have hcb : ∀ d ii r ii',
        processInstall env fuel d c ii = some (r, ii') → StepOK ii ii' :=
      fun d ii r ii' hh => ih d c ii r ii' hh
    rw [processInstall] at h
    cases hnv : nameAndVersion (pyBasename m) with
    | none => simp only [hnv] at h; exact Option.noConfusion h
    | some p =>
      obtain ⟨nwv, iv⟩ := p
      simp only [hnv] at h
      by_cases hmem : pyBasename m ∈ s.processed_installs
      · rw [if_pos hmem] at h
        simp only [Option.some.injEq, Prod.mk.injEq] at h
        rw [← h.2]; exact StepOK_refl s
      · rw [if_neg hmem] at h
        by_cases hpu : nwv ∈ s.processed_uninstalls
        · rw [if_pos hpu] at h
          simp only [Option.some.injEq, Prod.mk.injEq] at h
          rw [← h.2]; exact StepOK_refl s
        · rw [if_neg hpu] at h
          cases hgd : getItemDetail env m c "" with
          | none => simp only [hgd] at h; exact Option.noConfusion h
          | some io =>
            cases io with
            | none =>
              simp only [hgd] at h
              simp only [Option.some.injEq, Prod.mk.injEq] at h
              rw [← h.2]; exact StepOK_refl s
            | some item_pl =>
              simp only [hgd] at h
              have hs1 : StepOK s
                  (if pyBasename m ∈ s.managed_updates then s
                   else { s with processed_installs :=
                     s.processed_installs ++ [pyBasename m] }) := by
                split
                · exact StepOK_refl s
                · rename_i hmu
                  refine StepOK_append_pi s (pyBasename m) hmu ?_
                  intro b' v' hbv
                  rw [hnv] at hbv
                  cases hbv
                  exact hpu
              exact StepOK_trans hs1
                (processInstallCore_StepOK env hcb item_pl nwv iv c _ b s' h)

end Munki

namespace Munki

/-! ### Master state-evolution lemma for `processRemoval`. -/


set_option maxHeartbeats 4000000 in
theorem processRemovalTail_RemOK (env : Env)
    {pr : String → InstallInfo → Option (Bool × InstallInfo)}
    (hpr : ∀ n ii r ii', pr n ii = some (r, ii') → RemOK ii ii')
    (item : MunkiItem) (un : Option String) (uwv alt : String)
    (c : List String) (itinfo : ItemInfo) (ii : InstallInfo) (b : Bool)
    (s' : InstallInfo)
    (h : processRemovalTail env pr item un uwv alt c itinfo ii =
      some (b, s')) : RemOK ii s' := by
  rw [processRemovalTail] at h
  cases hl1 : lookForUpdates env un c with
  | none => simp only [hl1] at h; exact Option.noConfusion h
  | some l1 =>
    simp only [hl1] at h
    cases hl2 : lookForUpdates env (some uwv) c with
    | none => simp only [hl2] at h; exact Option.noConfusion h
    | some l2 =>
      simp only [hl2] at h
      cases hl3 : lookForUpdates env (some alt) c with
      | none => simp only [hl3] at h; exact Option.noConfusion h
      | some l3 =>
        simp only [hl3] at h
        cases hru : runUpdates pr (l1 ++ l2 ++ l3) ii with
        | none => simp only [hru] at h; exact Option.noConfusion h
        | some ii2 =>
          simp only [hru] at h
          simp only [Option.some.injEq, Prod.mk.injEq] at h
          rw [← h.2]
          exact RemOK_trans
            (runUpdates_rel RemOK_refl RemOK_trans hpr _ _ _ hru)
            (RemOK_same_core rfl rfl rfl rfl)

theorem processRemovalFinish_RemOK (env : Env)
    {pr : String → InstallInfo → Option (Bool × InstallInfo)}
    (hpr : ∀ n ii r ii', pr n ii = some (r, ii') → RemOK ii ii')
    (item : MunkiItem) (um : String) (un : Option String) (uwv alt : String)
    (c : List String) (itinfo : ItemInfo) (ii : InstallInfo) (b : Bool)
    (s' : InstallInfo)
    (h : processRemovalFinish env pr item um un uwv alt c itinfo ii =
      some (b, s')) : RemOK ii s' := by
  rw [processRemovalFinish] at h
  by_cases ha : pyStartsWith um "Adobe" = true
  · rw [if_pos ha] at h
    by_cases hai : item.adobe_install_info.isSome = true
    · rw [if_pos hai] at h
      exact processRemovalTail_RemOK env hpr item un uwv alt c _ ii b s' h
    · rw [if_neg hai] at h
      cases hloc : (if item.uninstaller_item_location.isSome then
          item.uninstaller_item_location
        else item.installer_item_location) with
      | none => simp only [hloc] at h; exact Option.noConfusion h
      | some location =>
        simp only [hloc] at h
        cases hdl : download_installeritem env item true with
        | ok dl =>
          simp only [hdl] at h
          exact processRemovalTail_RemOK env hpr item un uwv alt c _ ii b s' h
        | verificationError =>
          simp only [hdl] at h
          simp only [Option.some.injEq, Prod.mk.injEq] at h
          rw [← h.2]; exact RemOK_refl ii
        | curlError =>
          simp only [hdl] at h
          simp only [Option.some.injEq, Prod.mk.injEq] at h
          rw [← h.2]; exact RemOK_refl ii
        | downloadError msg =>
          simp only [hdl] at h
          simp only [Option.some.injEq, Prod.mk.injEq] at h
          rw [← h.2]; exact RemOK_refl ii
  · rw [if_neg ha] at h
    by_cases h1 : um = "remove_copied_items"
    · rw [if_pos h1] at h
      exact processRemovalTail_RemOK env hpr item un uwv alt c _ ii b s' h
    · rw [if_neg h1] at h
      by_cases h2 : um = "remove_app"
      · rw [if_pos h2] at h
        by_cases h3 : optListTruthy item.installs = true
        · rw [if_pos h3] at h
          exact processRemovalTail_RemOK env hpr item un uwv alt c _ ii b s' h
        · rw [if_neg h3] at h
          exact processRemovalTail_RemOK env hpr item un uwv alt c _ ii b s' h
      · rw [if_neg h2] at h
        by_cases h4 : um = "uninstall_script"
        · rw [if_pos h4] at h
          exact processRemovalTail_RemOK env hpr item un uwv alt c _ ii b s' h
        · rw [if_neg h4] at h
          exact processRemovalTail_RemOK env hpr item un uwv alt c _ ii b s' h


end Munki

namespace Munki


set_option maxHeartbeats 4000000 in
theorem processRemovalCore_RemOK (env : Env)
    {pr : String → InstallInfo → Option (Bool × InstallInfo)}
    (hcb : ∀ n ii r ii', pr n ii = some (r, ii') → RemOK ii ii')
    (mname iv : String) (c : List String) (s1 : InstallInfo)
    (b : Bool) (s' : InstallInfo)
    (h : processRemovalCore env pr mname iv c s1 = some (b, s')) :
    RemOK s1 s' := by
  rw [processRemovalCore] at h
  cases hinfo : (if iv ≠ "" then
      (getItemDetail env mname c iv).map Option.toList
    else getAllItemsWithName env mname c) with
  | none => simp only [hinfo] at h; exact Option.noConfusion h
  | some infoitems =>
    simp only [hinfo] at h
    by_cases hemp : infoitems = []
    · rw [if_pos hemp] at h
      simp only [Option.some.injEq, Prod.mk.injEq] at h
      rw [← h.2]; exact RemOK_refl s1
    · rw [if_neg hemp] at h
      cases hfe : findEvidence env infoitems with
      | none => simp only [hfe] at h; exact Option.noConfusion h
      | some evo =>
        cases evo with
        | none =>
          simp only [hfe] at h
          simp only [Option.some.injEq, Prod.mk.injEq] at h
          rw [← h.2]
          exact RemOK_same_core rfl rfl rfl rfl
        | some item =>
          simp only [hfe] at h
          cases hdet : determineUninstall env item with
          | none => simp only [hdet] at h; exact Option.noConfusion h
          | some deto =>
            cases deto with
            | none =>
              simp only [hdet] at h
              simp only [Option.some.injEq, Prod.mk.injEq] at h
              rw [← h.2]; exact RemOK_refl s1
            | some umpk =>
              obtain ⟨um, pkgs⟩ := umpk
              simp only [hdet] at h
              cases hscan : scanCatalogsForDependents pr env
                  item.name
                  (pyRepr item.name ++ "-" ++ pyRepr item.version)
                  (pyRepr item.name ++ "--" ++ pyRepr item.version)
                  c [] s1 true with
              | none => simp only [hscan] at h; exact Option.noConfusion h
              | some p3 =>
                obtain ⟨s2, depsOK⟩ := p3
                simp only [hscan] at h
                have hs2 : RemOK s1 s2 :=
                  scanCatalogs_rel RemOK_refl RemOK_trans hcb
                    env _ _ _ _ _ s1 _ _ _ hscan
                cases depsOK with
                | false =>
                  rw [if_neg Bool.false_ne_true] at h
                  simp only [Option.some.injEq, Prod.mk.injEq] at h
                  rw [← h.2]; exact hs2
                | true =>
                  rw [if_pos rfl] at h
                  by_cases hpk : pkgs ≠ []
                  · rw [if_pos hpk] at h
                    cases hrm : removePkgReferences
                        (removalIteminfo item).name pkgs
                        s2.pkg_references with
                    | none =>
                      simp only [hrm] at h
                      exact Option.noConfusion h
                    | some p4 =>
                      obtain ⟨really, refs2⟩ := p4
                      simp only [hrm] at h
                      have hs3 : RemOK s1
                          { s2 with pkg_references := refs2 } :=
                        RemOK_trans hs2
                          (RemOK_same_core rfl rfl rfl rfl)
                      generalize hg3 :
                        { s2 with pkg_references := refs2 } = s3
                          at h hs3
                      by_cases hre : really = []
                      · rw [if_pos hre] at h
                        simp only [Option.some.injEq,
                          Prod.mk.injEq] at h
                        rw [← h.2]; exact hs3
                      · rw [if_neg hre] at h
                        exact RemOK_trans hs3
                          (processRemovalFinish_RemOK env hcb item
                            um _ _ _ c _ s3 b s' h)
                  · rw [if_neg hpk] at h
                    exact RemOK_trans hs2
                      (processRemovalFinish_RemOK env hcb item
                        um _ _ _ c _ s2 b s' h)

theorem processRemoval_RemOK (env : Env) :
    ∀ (fuel : Nat) (m : String) (c : List String) (s : InstallInfo)
      (b : Bool) (s' : InstallInfo),
      processRemoval env fuel m c s = some (b, s') → RemOK s s' := by
  intro fuel
  induction fuel with
  | zero => intro m c s b s' h; exact absurd h (by simp [processRemoval])
  | succ fuel ih =>
    intro m c s b s' h
    have hcb : ∀ n ii r ii',
        processRemoval env fuel n c ii = some (r, ii') → RemOK ii ii' :=
      fun n ii r ii' hh => ih n c ii r ii' hh
    rw [processRemoval] at h
    cases hnv : nameAndVersion (pyBasename m) with
    | none => simp only [hnv] at h; exact Option.noConfusion h
    | some p =>
      obtain ⟨mname, iv⟩ := p
      simp only [hnv] at h
      cases hbs : basesOf s.processed_installs with
      | none => simp only [hbs] at h; exact Option.noConfusion h
      | some bases =>
        simp only [hbs] at h
        by_cases hm1 : mname ∈ bases
        · rw [if_pos hm1] at h
          simp only [Option.some.injEq, Prod.mk.injEq] at h
          rw [← h.2]; exact RemOK_refl s
        · rw [if_neg hm1] at h
          by_cases hm2 : mname ∈ s.processed_uninstalls
          · rw [if_pos hm2] at h
            simp only [Option.some.injEq, Prod.mk.injEq] at h
            rw [← h.2]; exact RemOK_refl s
          · rw [if_neg hm2] at h
            exact RemOK_trans (RemOK_append_pu s mname bases hbs hm1)
              (processRemovalCore_RemOK env hcb mname iv c _ b s' h)

/-- `processManagedUpdate` state evolution: `managed_updates` may gain
exactly the request's base name; `processed_installs` gains nothing
already in `managed_updates` at entry (in particular never the request's
own name); `processed_uninstalls` is untouched. -/
theorem processManagedUpdate_effects (env : Env) (fuel : Nat)
    (m : String) (c : List String) (s : InstallInfo) (s' : InstallInfo)
    (h : processManagedUpdate env fuel m c s = some s') :
    (pyBasename m ∈ s'.processed_installs ↔
      pyBasename m ∈ s.processed_installs) ∧
    s'.processed_uninstalls = s.processed_uninstalls ∧
    (s'.managed_installs ≠ s.managed_installs →
      pyBasename m ∈ s'.managed_updates) ∧
    (GuardInv s → GuardInv s') := by
  rw [processManagedUpdate] at h
  by_cases h1 : pyBasename m ∈ s.managed_updates
  · rw [if_pos h1] at h
    cases h
    exact ⟨Iff.rfl, rfl, fun hne => absurd rfl hne, fun g => g⟩
  · rw [if_neg h1] at h
    by_cases h2 : pyBasename m ∈ s.processed_installs
    · rw [if_pos h2] at h
      cases h
      exact ⟨Iff.rfl, rfl, fun hne => absurd rfl hne, fun g => g⟩
    · rw [if_neg h2] at h
      by_cases h3 : pyBasename m ∈ s.processed_uninstalls
      · rw [if_pos h3] at h
        cases h
        exact ⟨Iff.rfl, rfl, fun hne => absurd rfl hne, fun g => g⟩
      · rw [if_neg h3] at h
        cases hgd : getItemDetail env m c "" with
        | none => simp only [hgd] at h; exact Option.noConfusion h
        | some io =>
          cases io with
          | none =>
            simp only [hgd] at h
            cases h
            exact ⟨Iff.rfl, rfl, fun hne => absurd rfl hne, fun g => g⟩
          | some item_pl =>
            simp only [hgd] at h
            by_cases hsv : someVersionInstalled env item_pl = true
            · rw [if_pos hsv] at h
              cases hpi : processInstall env fuel m c
                  { s with managed_updates :=
                    s.managed_updates ++ [pyBasename m] } with
              | none => simp only [hpi] at h; exact Option.noConfusion h
              | some p =>
                obtain ⟨r, ii2⟩ := p
                simp only [hpi] at h
                have hstep := processInstall_StepOK env fuel m c _ r ii2 hpi
                have hs'eq : s' = ii2 := by
                  simp only [Option.some.injEq] at h
                  exact h.symm
                subst hs'eq
                obtain ⟨hmu, hpu, _, add, hadd, hg⟩ := hstep
                refine ⟨?_, hpu, ?_, ?_⟩
                · rw [hadd]
                  simp only [List.mem_append]
                  constructor
                  · rintro (hx | hx)
                    · exact hx
                    · exact absurd (by simp : pyBasename m ∈
                        s.managed_updates ++ [pyBasename m])
                        (hg (pyBasename m) hx).1
                  · exact fun hx => Or.inl hx
                · intro _
                  rw [hmu]
                  simp
                · intro hginv
                  have hginv1 : GuardInv { s with managed_updates :=
                      s.managed_updates ++ [pyBasename m] } := by
                    intro n hn b v hnv
                    exact hginv n hn b v hnv
                  exact GuardInv_of_StepOK
                    (processInstall_StepOK env fuel m c _ r _ hpi) hginv1
            · rw [if_neg hsv] at h
              cases h
              exact ⟨Iff.rfl, rfl, fun hne => absurd rfl hne, fun g => g⟩

end Munki

namespace Munki

/-! ### Helper lemmas for the remaining claims: reference counting,
membership after a successful install, and the run-level guard
invariant. -/

/-- Rewriting one key's bucket leaves every other key's lookup alone. -/
theorem assocFind_map_set_ne (lst' : List String) (pkg p : String)
    (hne : p ≠ pkg) :
    ∀ (refs : List (String × List String)),
      assocFind (refs.map (fun e => if e.1 = pkg then (e.1, lst') else e)) p
        = assocFind refs p := by
  intro refs
  induction refs with
  | nil => rfl
  | cons e rest ih =>
    simp only [List.map_cons, assocFind]
    by_cases hep : e.1 = p
    · have hek : ¬ (e.1 = pkg) := fun hh => hne (hep ▸ hh)
      rw [if_neg hek, List.find?_cons_of_pos _ (by simp [hep]),
          List.find?_cons_of_pos _ (by simp [hep])]
    · have hfst : (if e.1 = pkg then (e.1, lst') else e).1 = e.1 := by
        by_cases hek : e.1 = pkg
        · rw [if_pos hek]
        · rw [if_neg hek]
      rw [List.find?_cons_of_neg _ (by simp [hfst, hep]),
          List.find?_cons_of_neg _ (by simp [hep])]
      exact ih

/-- Every package queued for real removal was one of the receipts
passed in. -/
theorem removePkgReferences_subset (name : String) :
    ∀ (pkgs : List String) (refs : List (String × List String))
      (really : List String) (refs' : List (String × List String)),
      removePkgReferences name pkgs refs = some (really, refs') →
      ∀ p ∈ really, p ∈ pkgs := by
  intro pkgs
  induction pkgs with
  | nil =>
    intro refs really refs' h p hp
    simp only [removePkgReferences, Option.some.injEq, Prod.mk.injEq] at h
    rw [← h.1] at hp
    exact absurd hp (List.not_mem_nil p)
  | cons pkg rest ih =>
    intro refs really refs' h p hp
    rw [removePkgReferences] at h
    cases haf : assocFind refs pkg with
    | none =>
      simp only [haf] at h
      exact List.mem_cons_of_mem pkg (ih refs really refs' h p hp)
    | some lst =>
      simp only [haf] at h
      by_cases hn : name ∈ lst
      · rw [if_pos hn] at h
        cases hrec : removePkgReferences name rest
            (refs.map (fun e =>
              if e.1 = pkg then (e.1, lst.erase name) else e)) with
        | none => simp only [hrec] at h; exact Option.noConfusion h
        | some pr =>
          obtain ⟨really0, refsF⟩ := pr
          simp only [hrec] at h
          by_cases hle : lst.erase name = []
          · rw [if_pos hle] at h
            simp only [Option.some.injEq, Prod.mk.injEq] at h
            rw [← h.1] at hp
            rcases List.mem_cons.mp hp with rfl | hp0
            · exact List.mem_cons_self p rest
            · exact List.mem_cons_of_mem pkg (ih _ _ _ hrec p hp0)
          · rw [if_neg hle] at h
            simp only [Option.some.injEq, Prod.mk.injEq] at h
            rw [← h.1] at hp
            exact List.mem_cons_of_mem pkg (ih _ _ _ hrec p hp)
      · rw [if_neg hn] at h
        exact Option.noConfusion h

/-- A receipt is queued for real removal exactly when erasing this
item's name from its reference bucket leaves the bucket empty, i.e.
when the removed item was the last remaining referencing item. -/
theorem removePkgReferences_queues (name : String) :
    ∀ (pkgs : List String) (refs : List (String × List String))
      (really : List String) (refs' : List (String × List String)),
      pkgs.Nodup →
      removePkgReferences name pkgs refs = some (really, refs') →
      ∀ p ∈ pkgs, ∀ lst, assocFind refs p = some lst →
        (p ∈ really ↔ lst.erase name = []) := by
  intro pkgs
  induction pkgs with
  | nil => intro _ _ _ _ _ p hp; exact absurd hp (List.not_mem_nil p)
  | cons pkg rest ih =>
    intro refs really refs' hnd h p hp lst hlst
    have hnd1 : pkg ∉ rest := (List.nodup_cons.mp hnd).1
    have hnd2 : rest.Nodup := (List.nodup_cons.mp hnd).2
    rw [removePkgReferences] at h
    rcases List.mem_cons.mp hp with rfl | hp0
    · simp only [hlst] at h
      by_cases hn : name ∈ lst
      · rw [if_pos hn] at h
        cases hrec : removePkgReferences name rest
            (refs.map (fun e =>
              if e.1 = p then (e.1, lst.erase name) else e)) with
        | none => simp only [hrec] at h; exact Option.noConfusion h
        | some pr =>
          obtain ⟨really0, refsF⟩ := pr
          simp only [hrec] at h
          by_cases hle : lst.erase name = []
          · rw [if_pos hle] at h
            simp only [Option.some.injEq, Prod.mk.injEq] at h
            rw [← h.1]
            exact ⟨fun _ => hle, fun _ => List.mem_cons_self p really0⟩
          · rw [if_neg hle] at h
            simp only [Option.some.injEq, Prod.mk.injEq] at h
            rw [← h.1]
            constructor
            · intro hmem
              exact absurd
                (removePkgReferences_subset name rest _ _ _ hrec p hmem)
                hnd1
            · intro hco; exact absurd hco hle
      · rw [if_neg hn] at h; exact Option.noConfusion h
    · have hpk : p ≠ pkg := fun hh => hnd1 (hh ▸ hp0)
      cases haf : assocFind refs pkg with
      | none =>
        simp only [haf] at h
        exact ih refs really refs' hnd2 h p hp0 lst hlst
      | some lst0 =>
        simp only [haf] at h
        by_cases hn : name ∈ lst0
        · rw [if_pos hn] at h
          cases hrec : removePkgReferences name rest
              (refs.map (fun e =>
                if e.1 = pkg then (e.1, lst0.erase name) else e)) with
          | none => simp only [hrec] at h; exact Option.noConfusion h
          | some pr =>
            obtain ⟨really0, refsF⟩ := pr
            simp only [hrec] at h
            have hlst2 : assocFind (refs.map
                (fun e => if e.1 = pkg then (e.1, lst0.erase name) else e)) p
                = some lst := by
              rw [assocFind_map_set_ne (lst0.erase name) pkg p hpk refs]
              exact hlst
            have hiff := ih _ really0 refsF hnd2 hrec p hp0 lst hlst2
            by_cases hle : lst0.erase name = []
            · rw [if_pos hle] at h
              simp only [Option.some.injEq, Prod.mk.injEq] at h
              rw [← h.1]
              constructor
              · intro hmem
                rcases List.mem_cons.mp hmem with heq | hmem0
                · exact absurd heq hpk
                · exact hiff.mp hmem0
              · intro hco
                exact List.mem_cons_of_mem pkg (hiff.mpr hco)
            · rw [if_neg hle] at h
              simp only [Option.some.injEq, Prod.mk.injEq] at h
              rw [← h.1]
              exact hiff
        · rw [if_neg hn] at h; exact Option.noConfusion h

/-- A successful `processInstall` of a name not in `managed_updates`
leaves that name in `processed_installs` (updatecheck.py:1409: the
append happens before prerequisites are examined, and the early-exit
guard covers the already-processed case). -/
theorem processInstall_true_mem (env : Env) (fuel : Nat) (m : String)
    (c : List String) (s s1 : InstallInfo)
    (hmu : pyBasename m ∉ s.managed_updates)
    (h : processInstall env (Nat.succ fuel) m c s = some (true, s1)) :
    pyBasename m ∈ s1.processed_installs := by
  rw [processInstall] at h
  cases hnv : nameAndVersion (pyBasename m) with
  | none => simp only [hnv] at h; exact Option.noConfusion h
  | some p =>
    obtain ⟨nwv, iv⟩ := p
    simp only [hnv] at h
    by_cases hmem : pyBasename m ∈ s.processed_installs
    · rw [if_pos hmem] at h
      simp only [Option.some.injEq, Prod.mk.injEq] at h
      rw [← h.2]; exact hmem
    · rw [if_neg hmem] at h
      by_cases hpu : nwv ∈ s.processed_uninstalls
      · rw [if_pos hpu] at h
        simp only [Option.some.injEq, Prod.mk.injEq] at h
        exact absurd h.1 (by simp)
      · rw [if_neg hpu] at h
        cases hgd : getItemDetail env m c "" with
        | none => simp only [hgd] at h; exact Option.noConfusion h
        | some io =>
          cases io with
          | none =>
            simp only [hgd] at h
            simp only [Option.some.injEq, Prod.mk.injEq] at h
            exact absurd h.1 (by simp)
          | some item_pl =>
            simp only [hgd] at h
            rw [if_neg hmu] at h
            have hstep := processInstallCore_StepOK env
              (fun d ii r ii' hh =>
                processInstall_StepOK env fuel d c ii r ii' hh)
              item_pl nwv iv c _ true s1 h
            obtain ⟨_, _, _, add, ha, _⟩ := hstep
            rw [ha]
            exact List.mem_append.mpr (Or.inl (by simp))

/-- Any run of install, removal and managed-update requests preserves
the mutual guard between the two processed lists. -/
theorem runRequests_GuardInv (env : Env) (fuel : Nat) :
    ∀ (reqs : List Request) (s s' : InstallInfo), GuardInv s →
      runRequests env fuel reqs s = some s' → GuardInv s' := by
  intro reqs
  induction reqs with
  | nil =>
    intro s s' hg h
    simp only [runRequests, Option.some.injEq] at h
    rw [← h]; exact hg
  | cons r rest ih =>
    intro s s' hg h
    cases r with
    | install m c =>
      rw [runRequests] at h
      cases hpi : processInstall env fuel m c s with
      | none => rw [hpi] at h; exact Option.noConfusion h
      | some p =>
        obtain ⟨b1, s1⟩ := p
        rw [hpi] at h
        exact ih s1 s' (GuardInv_of_StepOK
          (processInstall_StepOK env fuel m c s b1 s1 hpi) hg) h
    | removal m c =>
      rw [runRequests] at h
      cases hpr : processRemoval env fuel m c s with
      | none => rw [hpr] at h; exact Option.noConfusion h
      | some p =>
        obtain ⟨b1, s1⟩ := p
        rw [hpr] at h
        exact ih s1 s' (GuardInv_of_RemOK
          (processRemoval_RemOK env fuel m c s b1 s1 hpr) hg) h
    | update m c =>
      rw [runRequests] at h
      cases hpu : processManagedUpdate env fuel m c s with
      | none => rw [hpu] at h; exact Option.noConfusion h
      | some s1 =>
        rw [hpu] at h
        exact ih s1 s'
          ((processManagedUpdate_effects env fuel m c s s1 hpu).2.2.2 hg) h


/-- `copyOptionalInstallKeys` never touches the `name`, `installed`
or `version_to_install` fields of the record it decorates. -/
theorem copyOptionalInstallKeys_core (item_pl : MunkiItem)
    (it : ItemInfo) :
    (copyOptionalInstallKeys item_pl it).name = it.name ∧
    (copyOptionalInstallKeys item_pl it).installed = it.installed ∧
    (copyOptionalInstallKeys item_pl it).version_to_install =
      it.version_to_install := by
  unfold copyOptionalInstallKeys
  repeat' split
  all_goals exact ⟨rfl, rfl, rfl⟩

/-- The record appended after a successful download carries the
item's name, `installed = False`, and the item's version as
`version_to_install`. -/
theorem downloadedIteminfo_core (env : Env) (item_pl : MunkiItem)
    (d : Bool) :
    (downloadedIteminfo env item_pl d).name = item_pl.name.getD "" ∧
    (downloadedIteminfo env item_pl d).installed = some false ∧
    (downloadedIteminfo env item_pl d).version_to_install =
      some (item_pl.version.getD "UNKNOWN") := by
  simp only [downloadedIteminfo]
  refine ⟨?_, ?_, ?_⟩
  · rw [(copyOptionalInstallKeys_core item_pl _).1]
    split <;> rfl
  · rw [(copyOptionalInstallKeys_core item_pl _).2.1]
    split <;> rfl
  · rw [(copyOptionalInstallKeys_core item_pl _).2.2]
    split <;> rfl

/-- `isItemInInstallInfo` returns true whenever the list holds a
record with the item's name that is installed, version-satisfying, or
matched with no version requested. -/
theorem isItemInInstallInfo_of_mem (env : Env) (item_pl : MunkiItem)
    (nm : String) (hname : item_pl.name = some nm)
    (vers : Option String) :
    ∀ (l : List ItemInfo) (r : ItemInfo), r ∈ l → r.name = nm →
      (¬ optStrTruthy vers = true ∨ r.installed = some true ∨
        compareVersions env r.version_to_install vers = 1 ∨
        compareVersions env r.version_to_install vers = 2) →
      isItemInInstallInfo env item_pl vers l = true := by
  intro l
  induction l with
  | nil => intro r hr; exact absurd hr (List.not_mem_nil r)
  | cons x rest ih =>
    intro r hr hrn hcond
    rw [isItemInInstallInfo]
    simp only [hname]
    rcases List.mem_cons.mp hr with rfl | hr0
    · rw [if_pos hrn]
      by_cases hv : ¬ optStrTruthy vers = true
      · rw [if_pos hv]
      · rw [if_neg hv]
        by_cases h2 : r.installed = some true
        · rw [if_pos h2]
        · rw [if_neg h2]
          rcases hcond with hv0 | h20 | hc | hc
          · exact absurd hv0 hv
          · exact absurd h20 h2
          · rw [if_pos (Or.inl hc)]
          · rw [if_pos (Or.inr hc)]
    · by_cases hxn : x.name = nm
      · rw [if_pos hxn]
        by_cases hv : ¬ optStrTruthy vers = true
        · rw [if_pos hv]
        · rw [if_neg hv]
          by_cases h2 : x.installed = some true
          · rw [if_pos h2]
          · rw [if_neg h2]
            by_cases h3 : compareVersions env x.version_to_install vers = 1 ∨
                compareVersions env x.version_to_install vers = 2
            · rw [if_pos h3]
            · rw [if_neg h3]
              exact ih r hr0 hrn hcond
      · rw [if_neg hxn]
        exact ih r hr0 hrn hcond

set_option maxHeartbeats 4000000 in
/-- A `processInstallCore` call that returns true leaves a record in
`managed_installs` that `isItemInInstallInfo` matches: either the body
exited at its first check (a match was already present), or the
download/already-installed branch appended one — provided the item has
a name and the version comparator is reflexive, as the real
`MunkiLooseVersion` comparison is. -/
theorem processInstallCore_true_match (env : Env)
    {pi_cb : String → InstallInfo → Option (Bool × InstallInfo)}
    (hcb : ∀ d ii r ii', pi_cb d ii = some (r, ii') → StepOK ii ii')
    (item_pl : MunkiItem) (nm : String)
    (hname : item_pl.name = some nm)
    (hrefl : ∀ v, env.vcmp (some v) (some v) = Ordering.eq)
    (nwv iv : String) (c : List String) (s0 s1 : InstallInfo)
    (h : processInstallCore env pi_cb item_pl nwv iv c s0 =
      some (true, s1)) :
    isItemInInstallInfo env item_pl item_pl.version
      s1.managed_installs = true := by
  rw [processInstallCore] at h
  by_cases hii : isItemInInstallInfo env item_pl
      item_pl.version s0.managed_installs = true
  · rw [if_pos hii] at h
    simp only [Option.some.injEq, Prod.mk.injEq] at h
    rw [← h.2]; exact hii
  · rw [if_neg hii] at h
    cases hrd : runDeps pi_cb (requiresList item_pl.requires) s0 true with
    | none => simp only [hrd] at h; exact Option.noConfusion h
    | some p2 =>
      obtain ⟨s2, depsMet⟩ := p2
      simp only [hrd] at h
      cases depsMet with
      | false =>
        rw [if_neg Bool.false_ne_true] at h
        simp only [Option.some.injEq, Prod.mk.injEq] at h
        exact absurd h.1 (by simp)
      | true =>
        rw [if_pos rfl] at h
        by_cases his : installedState env item_pl = 0
        · rw [if_pos his] at h
          cases hdl : download_installeritem env item_pl false with
          | verificationError =>
            simp only [hdl] at h
            simp only [Option.some.injEq, Prod.mk.injEq] at h
            exact absurd h.1 (by simp)
          | curlError =>
            simp only [hdl] at h
            simp only [Option.some.injEq, Prod.mk.injEq] at h
            exact absurd h.1 (by simp)
          | downloadError msg =>
            simp only [hdl] at h
            simp only [Option.some.injEq, Prod.mk.injEq] at h
            exact absurd h.1 (by simp)
          | ok downloaded =>
            simp only [hdl] at h
            have hrname : (downloadedIteminfo env item_pl downloaded).name
                = nm := by
              rw [(downloadedIteminfo_core env item_pl downloaded).1, hname]
              rfl
            have hcond : ¬ optStrTruthy item_pl.version = true ∨
                (downloadedIteminfo env item_pl downloaded).installed =
                  some true ∨
                compareVersions env
                  (downloadedIteminfo env item_pl downloaded).version_to_install
                  item_pl.version = 1 ∨
                compareVersions env
                  (downloadedIteminfo env item_pl downloaded).version_to_install
                  item_pl.version = 2 := by
              cases hv : item_pl.version with
              | none => exact Or.inl (by simp [optStrTruthy])
              | some v =>
                by_cases hvv : v = ""
                · exact Or.inl (by simp [optStrTruthy, hvv])
                · refine Or.inr (Or.inr (Or.inl ?_))
                  rw [(downloadedIteminfo_core env item_pl downloaded).2.2,
                    hv]
                  simp only [Option.getD_some]
                  simp only [compareVersions, hrefl v]
            have hr : downloadedIteminfo env item_pl downloaded ∈
                ({ s2 with managed_installs := s2.managed_installs ++
                  [downloadedIteminfo env item_pl downloaded] }
                  : InstallInfo).managed_installs := by simp
            generalize hg3 : { s2 with managed_installs :=
                s2.managed_installs ++
                  [downloadedIteminfo env item_pl downloaded] }
                = s3 at h hr
            by_cases hivq : iv ≠ ""
            · rw [if_pos hivq] at h
              exact absurd h (by simp)
            · rw [if_neg hivq] at h
              cases hl1 : lookForUpdates env (some nwv) c with
              | none => simp only [hl1] at h; exact Option.noConfusion h
              | some l1 =>
                simp only [hl1] at h
                cases hl2 : lookForUpdatesForVersion env nwv
                    (item_pl.version.getD "UNKNOWN") c with
                | none => simp only [hl2] at h; exact Option.noConfusion h
                | some l2 =>
                  simp only [hl2] at h
                  cases hru : runUpdates pi_cb (l1 ++ l2) s3 with
                  | none => simp only [hru] at h; exact Option.noConfusion h
                  | some s4 =>
                    simp only [hru] at h
                    simp only [Option.some.injEq, Prod.mk.injEq] at h
                    obtain ⟨_, _, ⟨mi2, hmi⟩, _⟩ :=
                      runUpdates_rel StepOK_refl StepOK_trans hcb _ _ _ hru
                    have hr1 : downloadedIteminfo env item_pl downloaded ∈
                        s1.managed_installs := by
                      rw [← h.2, hmi]
                      exact List.mem_append_left _ hr
                    exact isItemInInstallInfo_of_mem env item_pl nm hname
                      item_pl.version s1.managed_installs _ hr1 hrname hcond
        · rw [if_neg his] at h
          cases hivs : installedVersionString env item_pl
              (installedState env item_pl) with
          | none => simp only [hivs] at h; exact Option.noConfusion h
          | some instVers =>
            simp only [hivs] at h
            have hrname : (installedIteminfo item_pl instVers).name = nm := by
              show item_pl.name.getD "" = nm
              rw [hname]
              rfl
            have hcond : ¬ optStrTruthy item_pl.version = true ∨
                (installedIteminfo item_pl instVers).installed = some true ∨
                compareVersions env
                  (installedIteminfo item_pl instVers).version_to_install
                  item_pl.version = 1 ∨
                compareVersions env
                  (installedIteminfo item_pl instVers).version_to_install
                  item_pl.version = 2 :=
              Or.inr (Or.inl rfl)
            have hr : installedIteminfo item_pl instVers ∈
                ({ s2 with managed_installs := s2.managed_installs ++
                  [installedIteminfo item_pl instVers] }
                  : InstallInfo).managed_installs := by simp
            generalize hg3 : { s2 with managed_installs :=
                s2.managed_installs ++
                  [installedIteminfo item_pl instVers] }
                = s3 at h hr
            by_cases hive : iv = ""
            · rw [if_pos hive] at h
              cases hl1 : lookForUpdates env (some nwv) c with
              | none => simp only [hl1] at h; exact Option.noConfusion h
              | some l1 =>
                simp only [hl1] at h
                cases hl2 : updatesForInstalledVersion env nwv
                    instVers c with
                | none => simp only [hl2] at h; exact Option.noConfusion h
                | some l2 =>
                  simp only [hl2] at h
                  cases hru : runUpdates pi_cb (l1 ++ l2) s3 with
                  | none => simp only [hru] at h; exact Option.noConfusion h
                  | some s4 =>
                    simp only [hru] at h
                    simp only [Option.some.injEq, Prod.mk.injEq] at h
                    obtain ⟨_, _, ⟨mi2, hmi⟩, _⟩ :=
                      runUpdates_rel StepOK_refl StepOK_trans hcb _ _ _ hru
                    have hr1 : installedIteminfo item_pl instVers ∈
                        s1.managed_installs := by
                      rw [← h.2, hmi]
                      exact List.mem_append_left _ hr
                    exact isItemInInstallInfo_of_mem env item_pl nm hname
                      item_pl.version s1.managed_installs _ hr1 hrname hcond
            · rw [if_neg hive] at h
              by_cases hcmp : compareVersions env (some iv)
                  (some instVers) = 1
              · rw [if_pos hcmp] at h
                cases hul : lookForUpdatesForVersion env nwv iv c with
                | none => simp only [hul] at h; exact Option.noConfusion h
                | some ul =>
                  simp only [hul] at h
                  cases hru : runUpdates pi_cb ul s3 with
                  | none => simp only [hru] at h; exact Option.noConfusion h
                  | some s4 =>
                    simp only [hru] at h
                    simp only [Option.some.injEq, Prod.mk.injEq] at h
                    obtain ⟨_, _, ⟨mi2, hmi⟩, _⟩ :=
                      runUpdates_rel StepOK_refl StepOK_trans hcb _ _ _ hru
                    have hr1 : installedIteminfo item_pl instVers ∈
                        s1.managed_installs := by
                      rw [← h.2, hmi]
                      exact List.mem_append_left _ hr
                    exact isItemInInstallInfo_of_mem env item_pl nm hname
                      item_pl.version s1.managed_installs _ hr1 hrname hcond
              · rw [if_neg hcmp] at h
                simp only [Option.some.injEq, Prod.mk.injEq] at h
                have hr1 : installedIteminfo item_pl instVers ∈
                    s1.managed_installs := by
                  rw [← h.2]
                  exact hr
                exact isItemInInstallInfo_of_mem env item_pl nm hname
                  item_pl.version s1.managed_installs _ hr1 hrname hcond

end Munki

namespace Munki

/-! ### Claims C1, C2, C4, C6, C7 and C10. -/

/-- C1 counterexample: requesting `ItemA` (whose `requires` names the
nowhere-defined `ItemB`) and then `ItemC` leaves `ItemA` in
`processed_installs` even though its install failed and produced no
record — contradicting the claim that a failed prerequisite leaves the
item unmarked. `ItemC` is still processed normally. -/
theorem C1_counterexample :
    (runRequests envMissingDep 3
        [.install "ItemA" ["cat"], .install "ItemC" ["cat"]] {}).map
      (fun s => (s.processed_installs,
        s.managed_installs.map ItemInfo.name)) =
    some (["ItemA", "ItemC"], ["ItemC"]) := rfl

/-- C1 amended: when item `A` requires exactly one name `B` that no
catalog defines, `processInstall A` returns `false`, appends no
outcome record to `managed_installs`, leaves every other field of the
state unchanged — but `A`'s name HAS been appended to
`processed_installs` (updatecheck.py:1409 appends before prerequisite
resolution), contrary to the claim's "not marking it processed". -/
theorem C1_amended (env : Env) (f : Nat) (m nB : String) (c : List String)
    (s : InstallInfo) (itemA : MunkiItem) (nA iv nBb ivB : String)
    (hnv : nameAndVersion (pyBasename m) = some (nA, iv))
    (hni : pyBasename m ∉ s.processed_installs)
    (hnu : nA ∉ s.processed_uninstalls)
    (hdet : getItemDetail env m c "" = some (some itemA))
    (hmu : pyBasename m ∉ s.managed_updates)
    (hnotin : isItemInInstallInfo env itemA itemA.version
      s.managed_installs = false)
    (hreq : requiresList itemA.requires = [nB])
    (hnvB : nameAndVersion (pyBasename nB) = some (nBb, ivB))
    (hB1 : pyBasename nB ∉ s.processed_installs ++ [pyBasename m])
    (hB2 : nBb ∉ s.processed_uninstalls)
    (hBnf : getItemDetail env nB c "" = some none) :
    processInstall env (Nat.succ (Nat.succ f)) m c s =
      some (false, { s with processed_installs :=
        s.processed_installs ++ [pyBasename m] }) := by
  rw [processInstall]
  simp only [hnv]
  rw [if_neg hni, if_neg hnu]
  simp only [hdet]
  rw [if_neg hmu]
  rw [processInstallCore]
  rw [if_neg (show ¬ (isItemInInstallInfo env itemA itemA.version
    ({ s with processed_installs :=
      s.processed_installs ++ [pyBasename m] }
      : InstallInfo).managed_installs = true) from by
    rw [show ({ s with processed_installs :=
      s.processed_installs ++ [pyBasename m] }
      : InstallInfo).managed_installs = s.managed_installs from rfl, hnotin]
    simp)]
  rw [hreq]
  have hB : processInstall env (Nat.succ f) nB c
      ({ s with processed_installs :=
        s.processed_installs ++ [pyBasename m] } : InstallInfo) =
      some (false, { s with processed_installs :=
        s.processed_installs ++ [pyBasename m] }) := by
    rw [processInstall]
    simp only [hnvB]
    rw [if_neg (show ¬ (pyBasename nB ∈
      ({ s with processed_installs :=
        s.processed_installs ++ [pyBasename m] }
        : InstallInfo).processed_installs) from hB1)]
    rw [if_neg (show ¬ (nBb ∈
      ({ s with processed_installs :=
        s.processed_installs ++ [pyBasename m] }
        : InstallInfo).processed_uninstalls) from hB2)]
    simp only [hBnf]
  simp only [runDeps]
  simp only [hB]
  simp only [runDeps, Bool.true_and]
  rw [if_neg Bool.false_ne_true]

/-- C1 witness: the amended statement at the concrete missing-dependency
environment. -/
theorem C1_amended_witness :
    processInstall envMissingDep 2 "ItemA" ["cat"] {} =
      some (false, { ({} : InstallInfo) with processed_installs :=
        ({} : InstallInfo).processed_installs ++ [pyBasename "ItemA"] }) :=
  C1_amended envMissingDep 0 "ItemA" "ItemB" ["cat"] {} itemReqA "ItemA" ""
    "ItemB" "" (by decide) (by decide) (by decide) rfl (by decide)
    (by decide) rfl (by decide) (by decide) (by decide) rfl

/-- C2 counterexample: removing `Foo-2-3` (split by the code into base
`Foo-2`) and then installing the exact name `Foo-2` (split into base
`Foo`) puts the very same name `Foo-2` into `processed_installs` and
`processed_uninstalls` at once, contradicting the claimed at-most-one
invariant for item names. -/
theorem C2_counterexample :
    (runRequests envFooV2 3
        [.removal "Foo-2-3" ["cat"], .install "Foo-2" ["cat"]] {}).map
      (fun s => (s.processed_installs, s.processed_uninstalls)) =
    some (["Foo-2"], ["Foo-2"]) := rfl

/-- C2 amended: the invariant the code actually maintains is on BASE
names — after any run no entry of `processed_installs` has its base
name in `processed_uninstalls` — and `processRemoval` of a name whose
base is already a base of `processed_installs` returns `false` with
the state (hence the removals list) completely unchanged. -/
theorem C2_amended :
    (∀ (env : Env) (fuel : Nat) (reqs : List Request) (s s' : InstallInfo),
      GuardInv s → runRequests env fuel reqs s = some s' → GuardInv s') ∧
    (∀ (env : Env) (fuel : Nat) (m : String) (c : List String)
       (s : InstallInfo) (mname iv : String) (bl : List String),
      nameAndVersion (pyBasename m) = some (mname, iv) →
      basesOf s.processed_installs = some bl → mname ∈ bl →
      processRemoval env (Nat.succ fuel) m c s = some (false, s)) := by
  constructor
  · intro env fuel reqs s s' hg hrun
    exact runRequests_GuardInv env fuel reqs s s' hg hrun
  · intro env fuel m c s mname iv bl hnv hbs hm
    rw [processRemoval]
    simp only [hnv]
    simp only [hbs]
    rw [if_pos hm]

/-- C2 witness: the base-name guard holds of the counterexample run's
final state, and a removal whose base name is already installed is
refused with the state unchanged. -/
theorem C2_amended_witness :
    (∀ n ∈ fooRunState.processed_installs, ∀ b v,
      nameAndVersion n = some (b, v) →
        b ∉ fooRunState.processed_uninstalls) ∧
    processRemoval testEnvBase 1 "Foo" [] fooGuardState =
      some (false, fooGuardState) := by
  refine ⟨?_, C2_amended.2 testEnvBase 0 "Foo" [] fooGuardState "Foo" ""
    ["Foo"] (by decide) rfl (by decide)⟩
  exact C2_amended.1 envFooV2 3
    [.removal "Foo-2-3" ["cat"], .install "Foo-2" ["cat"]] {} fooRunState
    (fun n hn => absurd hn (List.not_mem_nil n)) rfl

/-- C4: an install request with an embedded version (`Foo-1.0`) whose
item is absent and downloads successfully does NOT reach the updater
search: updatecheck.py:1545 calls the three-parameter
`lookForUpdatesForVersion` with two arguments, an uncaught TypeError,
so the whole run dies (modelled as `none`). -/
theorem C4_versioned_install_updater_crash :
    processInstall envFooDl 2 "Foo-1.0" ["cat"] {} = none := rfl

/-- C6: in a receipt-based removal, a package ID is queued for real
removal exactly when erasing the removed item's name from that
package's reference bucket leaves no referencing item, and when no
package ends up uniquely owned (`really = []`) the removal returns
`false` with no removal record appended. -/
theorem C6_shared_receipt_refcount (env : Env) (fuel : Nat)
    (m : String) (c : List String) (s : InstallInfo)
    (mname : String) (bl : List String) (infoitems : List MunkiItem)
    (item : MunkiItem) (pkgs really : List String)
    (refs2 : List (String × List String)) (s2 : InstallInfo)
    (hnv : nameAndVersion (pyBasename m) = some (mname, ""))
    (hbs : basesOf s.processed_installs = some bl)
    (hm1 : mname ∉ bl) (hm2 : mname ∉ s.processed_uninstalls)
    (hga : getAllItemsWithName env mname c = some infoitems)
    (hne : infoitems ≠ [])
    (hfe : findEvidence env infoitems = some (some item))
    (hdu : determineUninstall env item =
      some (some ("removepackages", pkgs)))
    (hpk : pkgs ≠ [])
    (hnd : pkgs.Nodup)
    (hscan : scanCatalogsForDependents
      (fun n ii => processRemoval env fuel n c ii) env item.name
      (pyRepr item.name ++ "-" ++ pyRepr item.version)
      (pyRepr item.name ++ "--" ++ pyRepr item.version) c []
      { s with processed_uninstalls := s.processed_uninstalls ++ [mname] }
      true = some (s2, true))
    (hrm : removePkgReferences (removalIteminfo item).name pkgs
      s2.pkg_references = some (really, refs2)) :
    (∀ p ∈ pkgs, ∀ lst, assocFind s2.pkg_references p = some lst →
      (p ∈ really ↔ lst.erase (removalIteminfo item).name = [])) ∧
    (really = [] →
      processRemoval env (Nat.succ fuel) m c s =
        some (false, { s2 with pkg_references := refs2 }) ∧
      ({ s2 with pkg_references := refs2 } : InstallInfo).removals
        = s2.removals) := by
  constructor
  · exact removePkgReferences_queues (removalIteminfo item).name pkgs
      s2.pkg_references really refs2 hnd hrm
  · intro hre
    refine ⟨?_, rfl⟩
    rw [processRemoval]
    simp only [hnv]
    simp only [hbs]
    rw [if_neg hm1, if_neg hm2]
    rw [processRemovalCore]
    rw [if_neg (fun hh => hh rfl)]
    simp only [hga]
    rw [if_neg hne]
    simp only [hfe]
    simp only [hdu]
    simp only [hscan]
    rw [if_pos trivial]
    rw [if_pos hpk]
    simp only [hrm]
    rw [if_pos hre]

/-- C6 witness: removing `Gone` while `pkg.shared` is still referenced
by another item queues nothing and the removal fails with no record. -/
theorem C6_witness :
    ("pkg.shared" ∈ ([] : List String) ↔
      (["Gone", "Other"].erase (removalIteminfo itemGone).name = [])) ∧
    processRemoval envGone 1 "Gone" ["cat"] gonePkgState =
      some (false, { goneMidState with
        pkg_references := [("pkg.shared", ["Other"])] }) := by
  have h := C6_shared_receipt_refcount envGone 0 "Gone" ["cat"]
    gonePkgState "Gone" [] [itemGone] itemGone ["pkg.shared"] []
    [("pkg.shared", ["Other"])] goneMidState
    (by decide) rfl (by decide) (by decide) rfl (List.cons_ne_nil _ _)
    rfl rfl (List.cons_ne_nil _ _) (by decide) rfl rfl
  exact ⟨h.1 "pkg.shared" (by decide) ["Gone", "Other"] rfl, (h.2 rfl).1⟩

/-- C7: a second `processInstall` call immediately after a successful
one returns `true` and changes nothing, so no second outcome record is
appended.  For a name whose first call appended it to
`processed_installs` the early-exit guard fires; for a name pending as
a managed update (no append) the body re-runs and exits at its
`isItemInInstallInfo` check, which matches the record the first call
left in `managed_installs` — given that the catalog item has a `name`
key (the data model requires one) and that the version comparator is
reflexive, as the real `MunkiLooseVersion` comparison is. -/
theorem C7_install_idempotent (env : Env) (f1 f2 : Nat)
    (m : String) (c : List String) (s s1 : InstallInfo)
    (hnm : ∀ item, getItemDetail env m c "" = some (some item) →
      item.name.isSome = true)
    (hrefl : ∀ v, env.vcmp (some v) (some v) = Ordering.eq)
    (h1 : processInstall env (Nat.succ f1) m c s = some (true, s1)) :
    processInstall env (Nat.succ f2) m c s1 = some (true, s1) := by
  have hstepAll := processInstall_StepOK env (Nat.succ f1) m c s true s1 h1
  rw [processInstall] at h1
  cases hnv : nameAndVersion (pyBasename m) with
  | none => simp only [hnv] at h1; exact Option.noConfusion h1
  | some p =>
    obtain ⟨nwv, iv⟩ := p
    simp only [hnv] at h1
    by_cases hmem : pyBasename m ∈ s.processed_installs
    · rw [if_pos hmem] at h1
      simp only [Option.some.injEq, Prod.mk.injEq] at h1
      rw [processInstall]
      simp only [hnv]
      rw [if_pos (h1.2 ▸ hmem)]
    · rw [if_neg hmem] at h1
      by_cases hpu : nwv ∈ s.processed_uninstalls
      · rw [if_pos hpu] at h1
        simp only [Option.some.injEq, Prod.mk.injEq] at h1
        exact absurd h1.1 (by simp)
      · rw [if_neg hpu] at h1
        cases hgd : getItemDetail env m c "" with
        | none => simp only [hgd] at h1; exact Option.noConfusion h1
        | some io =>
          cases io with
          | none =>
            simp only [hgd] at h1
            simp only [Option.some.injEq, Prod.mk.injEq] at h1
            exact absurd h1.1 (by simp)
          | some item_pl =>
            simp only [hgd] at h1
            obtain ⟨nm, hname⟩ : ∃ nm, item_pl.name = some nm :=
              Option.isSome_iff_exists.mp (hnm item_pl hgd)
            by_cases hmu : pyBasename m ∈ s.managed_updates
            · rw [if_pos hmu] at h1
              have hiii := processInstallCore_true_match env
                (fun d ii r ii' hh =>
                  processInstall_StepOK env f1 d c ii r ii' hh)
                item_pl nm hname hrefl nwv iv c s s1 h1
              obtain ⟨hmuEq, hpuEq, _, _⟩ := hstepAll
              rw [processInstall]
              simp only [hnv]
              by_cases hmem1 : pyBasename m ∈ s1.processed_installs
              · rw [if_pos hmem1]
              · rw [if_neg hmem1]
                rw [if_neg (show nwv ∉ s1.processed_uninstalls from by
                  rw [hpuEq]; exact hpu)]
                simp only [hgd]
                rw [if_pos (show pyBasename m ∈ s1.managed_updates from by
                  rw [hmuEq]; exact hmu)]
                rw [processInstallCore]
                rw [if_pos hiii]
            · rw [if_neg hmu] at h1
              have hstep := processInstallCore_StepOK env
                (fun d ii r ii' hh =>
                  processInstall_StepOK env f1 d c ii r ii' hh)
                item_pl nwv iv c _ true s1 h1
              obtain ⟨_, _, _, add, ha, _⟩ := hstep
              have hmem1 : pyBasename m ∈ s1.processed_installs := by
                rw [ha]
                exact List.mem_append.mpr (Or.inl (by simp))
              rw [processInstall]
              simp only [hnv]
              rw [if_pos hmem1]

/-- C7 witness: `Bar`, pending as a managed update, is installed once
(no `processed_installs` append) and a second call returns `true` with
the state unchanged. -/
theorem C7_witness :
    processInstall envNamedBar 1 "Bar" ["cat"] barMUState =
      some (true, barMUState) :=
  C7_install_idempotent envNamedBar 0 0 "Bar" ["cat"]
    { managed_updates := ["Bar"] } barMUState
    (fun item hit => by
      simp only [show getItemDetail envNamedBar "Bar" ["cat"] "" =
          some (some itemNamedBar) from rfl,
        Option.some.injEq] at hit
      rw [← hit]
      rfl)
    (fun v => by
      show compare v v = Ordering.eq
      simp [compare, compareOfLessAndEq])
    rfl

/-- C10: a `processManagedUpdate` call never moves the request's base
name into `processed_installs` (membership there is unchanged), never
touches `processed_uninstalls`, records the base name in
`managed_updates` whenever it enqueued an install, and consequently a
later removal of any name whose base is not among the bases of
`processed_installs` is not blocked: it marks the base processed for
uninstall. -/
theorem C10_managed_update_nonblocking (env : Env) (fuel : Nat)
    (m : String) (c : List String) (s s' : InstallInfo)
    (hpm : processManagedUpdate env fuel m c s = some s') :
    (pyBasename m ∈ s'.processed_installs ↔
      pyBasename m ∈ s.processed_installs) ∧
    s'.processed_uninstalls = s.processed_uninstalls ∧
    (s'.managed_installs ≠ s.managed_installs →
      pyBasename m ∈ s'.managed_updates) ∧
    (∀ (fuel2 : Nat) (m2 n iv2 : String) (bl : List String) (b : Bool)
       (s2 : InstallInfo),
      nameAndVersion (pyBasename m2) = some (n, iv2) →
      basesOf s'.processed_installs = some bl → n ∉ bl →
      processRemoval env (Nat.succ fuel2) m2 c s' = some (b, s2) →
      n ∈ s2.processed_uninstalls) := by
  have he := processManagedUpdate_effects env fuel m c s s' hpm
  refine ⟨he.1, he.2.1, he.2.2.1, ?_⟩
  intro fuel2 m2 n iv2 bl b2 s2 hnv2 hbs2 hnbl hrem
  rw [processRemoval] at hrem
  simp only [hnv2] at hrem
  simp only [hbs2] at hrem
  rw [if_neg hnbl] at hrem
  by_cases hm2 : n ∈ s'.processed_uninstalls
  · rw [if_pos hm2] at hrem
    simp only [Option.some.injEq, Prod.mk.injEq] at hrem
    rw [← hrem.2]; exact hm2
  · rw [if_neg hm2] at hrem
    have hcore := processRemovalCore_RemOK env
      (fun nn ii r ii' hh =>
        processRemoval_RemOK env fuel2 nn c ii r ii' hh)
      n iv2 c _ b2 s2 hrem
    obtain ⟨_, _, _, add, ha, _⟩ := hcore
    rw [ha]
    simp

/-- C10 witness: a managed update of `Bar` from the empty state leaves
`processed_installs` empty, records `Bar` in `managed_updates`, and a
subsequent removal of `Bar` goes through. -/
theorem C10_witness :
    (pyBasename "Bar" ∈ barMUState.processed_installs ↔
      pyBasename "Bar" ∈ ({} : InstallInfo).processed_installs) ∧
    barMUState.processed_uninstalls =
      ({} : InstallInfo).processed_uninstalls ∧
    (barMUState.managed_installs ≠ ({} : InstallInfo).managed_installs →
      pyBasename "Bar" ∈ barMUState.managed_updates) ∧
    "Bar" ∈ barMURemoved.processed_uninstalls := by
  have h := C10_managed_update_nonblocking envNamedBar 2 "Bar" ["cat"]
    {} barMUState rfl
  exact ⟨h.1, h.2.1, h.2.2.1,
    h.2.2.2 0 "Bar" "Bar" "" [] true barMURemoved (by decide) rfl
      (by decide) rfl⟩

end Munki
